import Mathlib

/-!
# Receipt processor: scoring engine, identity derivation and receipt store

A shallow embedding of `main.go`.  Go strings are modelled by Lean strings
(sequences of Unicode scalar values, i.e. valid UTF-8, which is what the JSON
decoder of the handler produces); `len` of a string is its UTF-8 byte count.
The Go type `int` is taken to be 64 bits wide.  The library functions the
program calls (`strconv.ParseFloat`, `math.Mod`, `math.Ceil`, `time.Parse`,
`strings.TrimSpace`, `regexp.FindAllString`) are modelled after their documented
behaviour; the hashing and serialisation libraries are parameters.
-/

namespace ReceiptProcessor

/-! ## Machine integers -/

/-- Reduction of an integer into the range of a 64-bit two's complement `int`. -/
def wrap64 (x : Int) : Int := (x + 9223372036854775808) % 18446744073709551616 - 9223372036854775808

/-! ## float64

Every finite float64 is an integer multiple of `2^-1074`; a finite value is
represented by that integer.  The two zeros are identified: the program only
compares floats with `== 0`, takes remainders and ceilings and converts to `int`,
none of which distinguishes them. -/

/-- The value 1.0 in units of `2^-1074`. -/
def unit : Nat := 1 <<< 1074

/-- First magnitude (in units of `2^-1074`) that no longer is a finite float64: `2^1024`. -/
def overflowThreshold : Nat := 1 <<< 2098

/-- A float64 value. -/
inductive F64 where
  | nan : F64
  | inf (neg : Bool) : F64
  | fin (k : Int) : F64
  deriving DecidableEq, Repr

/-- Auxiliary for `ilog2`, recursion on fuel. -/
def ilog2Aux : Nat → Nat → Nat
  | 0, _ => 0
  | fuel + 1, n => if n < 2 then 0 else ilog2Aux fuel (n / 2) + 1

/-- Position of the highest set bit: `floor (log2 n)` for `n > 0`, and `0` for `n = 0`. -/
def ilog2 (n : Nat) : Nat := ilog2Aux n n

/-- Nearest integer to `N / D`, ties to even. -/
def rne (N D : Nat) : Nat :=
  let q := N / D
  let r := N % D
  if 2 * r < D then q else if D < 2 * r then q + 1 else if q % 2 = 0 then q else q + 1

/-- IEEE 754 round-to-nearest-even of the non-negative rational `N / D`, measured in units
of `2^-1074`, onto the float64 grid with unbounded exponent: below `2^53` units the grid
step is one unit (subnormals and the first binade), above it the step is `2^j` with
`j = floor (log2 (N / D)) - 52`. -/
def roundUnits (N D : Nat) : Nat :=
  let j := ilog2 (N / D) - 52
  rne N (D <<< j) <<< j

/-- The float64 nearest to the rational `± N / D` (in real units), with the range flag:
magnitudes that round to `2^1024` or more become an infinity. -/
def roundToF64 (neg : Bool) (N D : Nat) : F64 × Bool :=
  let k := roundUnits (N * unit) D
  if overflowThreshold ≤ k then (F64.inf neg, true)
  else (F64.fin (if neg then -(k : Int) else (k : Int)), false)

namespace F64

/-- Float multiplication `x * y`. -/
def mul : F64 → F64 → F64
  | nan, _ => nan
  | _, nan => nan
  | inf a, inf b => inf (xor a b)
  | inf a, fin k => if k = 0 then nan else inf (xor a (decide (k < 0)))
  | fin k, inf b => if k = 0 then nan else inf (xor (decide (k < 0)) b)
  | fin a, fin b =>
    let neg := xor (decide (a < 0)) (decide (b < 0))
    let k := roundUnits (a.natAbs * b.natAbs) unit
    if overflowThreshold ≤ k then inf neg else fin (if neg then -(k : Int) else (k : Int))

/-- Function `math.Mod(x, y)`: the remainder with the sign of `x`; it is exact. -/
def mod : F64 → F64 → F64
  | nan, _ => nan
  | inf _, _ => nan
  | fin _, nan => nan
  | fin a, inf _ => fin a
  | fin a, fin b => if b = 0 then nan else fin (Int.tmod a b)

/-- Function `math.Ceil(x)`. -/
def ceil : F64 → F64
  | fin k => fin (-((-k) / (unit : Int)) * (unit : Int))
  | x => x

/-- Comparison `x == 0`. -/
def isZero : F64 → Bool
  | fin k => decide (k = 0)
  | _ => false

/-- Conversion `int(x)`: truncation towards zero when the result fits an `int`; otherwise
the Go specification leaves the value implementation-dependent, given here by `conv`. -/
def toInt (conv : F64 → Int) : F64 → Int
  | fin k =>
    let t := Int.tdiv k (unit : Int)
    if -9223372036854775808 ≤ t ∧ t < 9223372036854775808 then t else wrap64 (conv (fin k))
  | x => wrap64 (conv x)

end F64

/-- The constant `0.2` of the source, converted to float64 by the compiler. -/
def const02 : F64 := (roundToF64 false 1 5).1

/-- The constant `1.0`. -/
def const1 : F64 := (roundToF64 false 1 1).1

/-- The constant `0.25`. -/
def const025 : F64 := (roundToF64 false 1 4).1

/-! ## strconv.ParseFloat -/

/-- ASCII decimal digit test, as `'0' <= c && c <= '9'`. -/
def isDigit (c : Char) : Bool := decide (48 ≤ c.toNat) && decide (c.toNat ≤ 57)

/-- Value of an ASCII decimal digit, `c - '0'`. -/
def digitVal (c : Char) : Nat := c.toNat - 48

/-- The helper `lower` of package strconv, `c | ('x' - 'X')`, on the code point. -/
def lower (c : Char) : Nat := c.toNat ||| 32

/-- Upper-case ASCII letters are mapped to lower case, as in `commonPrefixLenIgnoreCase`. -/
def foldCase (c : Char) : Nat :=
  if 65 ≤ c.toNat ∧ c.toNat ≤ 90 then c.toNat + 32 else c.toNat

/-- The helper `special` of package strconv, for a string that is matched whole: an
optionally signed `inf` or `infinity`, or an unsigned `nan`, ignoring case. -/
def special (s : List Char) : Option F64 :=
  let signed : Bool := match s with
    | c :: _ => c = '+' || c = '-'
    | [] => false
  let neg : Bool := match s with
    | c :: _ => c = '-'
    | [] => false
  let body := (if signed then s.drop 1 else s).map foldCase
  if body = [105, 110, 102] ∨ body = [105, 110, 102, 105, 110, 105, 116, 121] then
    some (F64.inf neg)
  else if ¬ signed ∧ body = [110, 97, 110] then some F64.nan
  else none

/-- State of the mantissa loop of `readFloat`.  The mantissa is kept exactly (all digits),
and `frac` counts the digits read after the point. -/
structure Mantissa where
  mant : Nat
  frac : Nat
  sawdot : Bool
  sawdigits : Bool
  underscores : Bool
  deriving DecidableEq, Repr

/-- Value of a mantissa digit in the given base, if the character is one. -/
def mantDigit (base : Nat) (c : Char) : Option Nat :=
  if isDigit c then some (digitVal c)
  else if base = 16 ∧ 97 ≤ lower c ∧ lower c ≤ 102 then some (lower c - 97 + 10)
  else none

/-- The mantissa loop of `readFloat`: underscores are skipped and recorded, one point is
accepted, digits are accumulated; the loop stops at the first other character. -/
def scanMantissa (base : Nat) : List Char → Mantissa → Mantissa × List Char
  | [], st => (st, [])
  | c :: cs, st =>
    if c = '_' then scanMantissa base cs { st with underscores := true }
    else if c = '.' then
      if st.sawdot then (st, c :: cs) else scanMantissa base cs { st with sawdot := true }
    else
      match mantDigit base c with
      | some d =>
        scanMantissa base cs
          { st with sawdigits := true, mant := st.mant * base + d,
                    frac := if st.sawdot then st.frac + 1 else st.frac }
      | none => (st, c :: cs)

/-- The exponent digit loop of `readFloat`: digits and underscores; the exponent stops
growing once it has reached 10000. -/
def scanExponent : List Char → Nat → Bool → Nat × Bool × List Char
  | [], e, us => (e, us, [])
  | c :: cs, e, us =>
    if isDigit c then scanExponent cs (if e < 10000 then e * 10 + digitVal c else e) us
    else if c = '_' then scanExponent cs e true
    else (e, us, c :: cs)

/-- The loop of `underscoreOK`; `saw` is the class of the last character seen:
`0` for a digit (`'0'`), `1` for an underscore (`'_'`), `2` for anything else (`'!'`),
`3` for the start (`'^'`). -/
def underscoreLoop (hex : Bool) : List Char → Nat → Bool
  | [], saw => saw ≠ 1
  | c :: cs, saw =>
    if isDigit c || (hex && decide (97 ≤ lower c) && decide (lower c ≤ 102)) then
      underscoreLoop hex cs 0
    else if c = '_' then
      if saw ≠ 0 then false else underscoreLoop hex cs 1
    else if saw = 1 then false
    else underscoreLoop hex cs 2

/-- The helper `underscoreOK` of package strconv: underscores must separate digits, or a
base prefix and a digit. -/
def underscoreOK (s : List Char) : Bool :=
  let s1 := match s with
    | c :: t => if c = '-' ∨ c = '+' then t else s
    | [] => s
  match s1 with
  | c0 :: c1 :: t =>
    if c0 = '0' ∧ (lower c1 = 98 ∨ lower c1 = 111 ∨ lower c1 = 120) then
      underscoreLoop (decide (lower c1 = 120)) t 0
    else underscoreLoop false s1 3
  | _ => underscoreLoop false s1 3

/-- The syntactic result of `readFloat` on a string that it accepts whole: sign, base,
exact mantissa, number of fraction digits, sign and size of the exponent. -/
structure FloatLit where
  neg : Bool
  hex : Bool
  mant : Nat
  frac : Nat
  eneg : Bool
  e : Nat
  deriving DecidableEq, Repr

/-- The function `readFloat` of package strconv, on a string that has to be consumed whole
(as `ParseFloat` requires): `none` is a syntax error. -/
def readFloat (s : List Char) : Option FloatLit :=
  let neg : Bool := match s with
    | c :: _ => c = '-'
    | [] => false
  let s1 := match s with
    | c :: t => if c = '+' ∨ c = '-' then t else s
    | [] => s
  let hex : Bool := match s1 with
    | c0 :: c1 :: _ :: _ => c0 = '0' && decide (lower c1 = 120)
    | _ => false
  let s2 := if hex then s1.drop 2 else s1
  let (m, rest) := scanMantissa (if hex then 16 else 10) s2 ⟨0, 0, false, false, false⟩
  if ¬ m.sawdigits then none
  else
    match rest with
    | [] => if hex then none
            else if m.underscores ∧ ¬ underscoreOK s then none
            else some ⟨neg, hex, m.mant, m.frac, false, 0⟩
    | c :: r1 =>
      if lower c ≠ (if hex then 112 else 101) then none
      else
        let eneg : Bool := match r1 with
          | d :: _ => d = '-'
          | [] => false
        let r2 := match r1 with
          | d :: t => if d = '+' ∨ d = '-' then t else r1
          | [] => r1
        match r2 with
        | [] => none
        | d :: _ =>
          if ¬ isDigit d then none
          else
            let (e, us, r3) := scanExponent r2 0 false
            if r3 ≠ [] then none
            else if (m.underscores ∨ us) ∧ ¬ underscoreOK s then none
            else some ⟨neg, hex, m.mant, m.frac, eneg, e⟩

/-- The float64 denoted by an accepted literal, correctly rounded (the documented result of
`ParseFloat`: the nearest floating-point number, IEEE 754 unbiased rounding), with the range
flag.  A decimal literal is `mant * 10^(±e - frac)`, a hexadecimal one
`mant * 2^(±e - 4 * frac)`. -/
def FloatLit.value (l : FloatLit) : F64 × Bool :=
  let b : Nat := if l.hex then 2 else 10
  let down : Nat := (if l.hex then 4 * l.frac else l.frac) + (if l.eneg then l.e else 0)
  let up : Nat := if l.eneg then 0 else l.e
  roundToF64 l.neg (l.mant * b ^ (up - down)) (b ^ (down - up))

/-- The function `strconv.ParseFloat(s, 64)`: the value and whether an error is returned.
A syntax error returns 0, a range error returns an infinity. -/
def parseFloat (s : List Char) : F64 × Bool :=
  match special s with
  | some v => (v, false)
  | none =>
    match readFloat s with
    | none => (F64.fin 0, true)
    | some l => l.value

/-! ## time.Parse -/

/-- The fields of a `time.Time` the program can observe. -/
structure Time where
  year : Nat
  month : Nat
  day : Nat
  hour : Nat
  minute : Nat
  deriving DecidableEq, Repr

/-- The zero `time.Time`, returned by `time.Parse` on error: January 1, year 1, 00:00. -/
def Time.zero : Time := ⟨1, 1, 1, 0, 0⟩

/-- The helper `getnum` of package time: a one- or two-digit number (exactly two digits
when `fixed`), and the rest of the input. -/
def getnum (s : List Char) (fixed : Bool) : Option (Nat × List Char) :=
  match s with
  | [] => none
  | c0 :: rest =>
    if ¬ isDigit c0 then none
    else
      match rest with
      | [] => if fixed then none else some (digitVal c0, rest)
      | c1 :: rest1 =>
        if isDigit c1 then some (digitVal c0 * 10 + digitVal c1, rest1)
        else if fixed then none
        else some (digitVal c0, rest)

/-- The helper `isLeap` of package time. -/
def isLeap (year : Nat) : Bool :=
  decide (year % 4 = 0) && (decide (year % 100 ≠ 0) || decide (year % 400 = 0))

/-- The helper `daysIn` of package time. -/
def daysIn (month year : Nat) : Nat :=
  if month = 2 then (if isLeap year then 29 else 28)
  else if month = 4 ∨ month = 6 ∨ month = 9 ∨ month = 11 then 30
  else 31

/-- The call `time.Parse("2006-01-02", value)`: four year digits, `-`, two month digits
(1 to 12), `-`, two day digits, no further text, and a day that exists in that month. -/
def parseDate (value : List Char) : Option Time :=
  match value with
  | y0 :: y1 :: y2 :: y3 :: v1 =>
    if ¬ (isDigit y0 ∧ isDigit y1 ∧ isDigit y2 ∧ isDigit y3) then none
    else
      let year := ((digitVal y0 * 10 + digitVal y1) * 10 + digitVal y2) * 10 + digitVal y3
      match v1 with
      | sep1 :: v2 =>
        if sep1 ≠ '-' then none
        else
          match getnum v2 true with
          | none => none
          | some (month, v3) =>
            if month = 0 ∨ 12 < month then none
            else
              match v3 with
              | sep2 :: v4 =>
                if sep2 ≠ '-' then none
                else
                  match getnum v4 true with
                  | none => none
                  | some (day, v5) =>
                    if v5 ≠ [] then none
                    else if day < 1 ∨ daysIn month year < day then none
                    else some ⟨year, month, day, 0, 0⟩
              | [] => none
      | [] => none
  | _ => none

/-- The call `time.Parse("15:04", value)`: one or two hour digits (below 24), `:`, two minute
digits (below 60), no further text.  The date fields default to January 1 of year 0. -/
def parseClock (value : List Char) : Option Time :=
  match getnum value false with
  | none => none
  | some (hour, v1) =>
    if 24 ≤ hour then none
    else
      match v1 with
      | sep :: v2 =>
        if sep ≠ ':' then none
        else
          match getnum v2 true with
          | none => none
          | some (minute, v3) =>
            if 60 ≤ minute then none
            else if v3 ≠ [] then none
            else some ⟨0, 1, 1, hour, minute⟩
      | [] => none

/-- The value of `t, _ := time.Parse(...)`: the zero time on error. -/
def orZero (t : Option Time) : Time := t.getD Time.zero

/-! ## strings.TrimSpace and regexp -/

/-- The predicate `unicode.IsSpace` (the White_Space property). -/
def isSpace (c : Char) : Bool :=
  let n := c.toNat
  (decide (9 ≤ n) && decide (n ≤ 13)) || n == 32 || n == 133 || n == 160 || n == 5760
    || (decide (8192 ≤ n) && decide (n ≤ 8202)) || n == 8232 || n == 8233 || n == 8239
    || n == 8287 || n == 12288

/-- The function `strings.TrimSpace`. -/
def trimSpace (s : List Char) : List Char :=
  ((s.dropWhile isSpace).reverse.dropWhile isSpace).reverse

/-- Built-in `len` of a string: the number of bytes of its UTF-8 encoding. -/
def byteLen (s : List Char) : Nat := (s.map Char.utf8Size).sum

/-- The character class `[a-zA-Z0-9]`. -/
def alnumClass (c : Char) : Bool :=
  let n := c.toNat
  (decide (97 ≤ n) && decide (n ≤ 122)) || (decide (65 ≤ n) && decide (n ≤ 90))
    || (decide (48 ≤ n) && decide (n ≤ 57))

/-- The call `reg.FindAllString(s, -1)` for a regular expression that is one character
class: the successive non-overlapping matches, each a single character. -/
def findAllString (cls : Char → Bool) : List Char → List String
  | [] => []
  | c :: cs => if cls c then String.singleton c :: findAllString cls cs
               else findAllString cls cs

/-! ## The program -/

/-- A Go slice value: the nil slice, or a (possibly empty) sequence of elements.  The two
have the same length and elements but are different values (they serialise differently). -/
inductive Slice (α : Type) where
  | null : Slice α
  | of (elems : List α) : Slice α
  deriving DecidableEq, Repr

/-- The elements of a slice, in order. -/
def Slice.toList {α : Type} : Slice α → List α
  | Slice.null => []
  | Slice.of elems => elems

/-- Item structure defines fields for an individual item on the receipt. -/
structure Item where
  ShortDescription : String
  Price : String
  deriving DecidableEq, Repr

/-- Receipt structure defines the fields of a receipt. -/
structure Receipt where
  Retailer : String
  PurchaseDate : String
  PurchaseTime : String
  Items : Slice Item
  Total : String
  deriving DecidableEq, Repr

/-- ReceiptPoints stores the ID and points associated with a receipt. -/
structure ReceiptPoints where
  ID : String
  Points : Int
  deriving DecidableEq, Repr

/-- The state of the global map `receipts`. -/
abbrev Store := String → Option ReceiptPoints

/-- The initial value of `receipts`, `make(map[string]ReceiptPoints)`. -/
def emptyStore : Store := fun _ => none

/-- Map assignment `receipts[id] = v`. -/
def Store.set (s : Store) (id : String) (v : ReceiptPoints) : Store :=
  fun k => if k = id then some v else s k

/-- The library functions behind `generateUUID`, which the program uses as black boxes:
`json.Marshal` on a receipt, `sha256.Sum256`, and
`uuid.NewSHA1(uuid.NameSpaceOID, h).String()`. -/
structure IdentityLib where
  jsonMarshal : Receipt → List Nat
  sha256Sum : List Nat → List Nat
  newSHA1String : List Nat → String

/-- Helper function to parse a string price into a float64. -/
def parsePrice (priceStr : String) : F64 × Bool := parseFloat priceStr.data

/-- Helper function to count alphanumeric characters in a string. -/
def countAlphanumeric (s : String) : Int := ((findAllString alnumClass s.data).length : Int)

/-- Helper function to check if a total is a round dollar amount. -/
def isRoundDollar (total : String) : Bool :=
  let price := (parsePrice total).1
  (F64.mod price const1).isZero

/-- Helper function to check if a total is a multiple of a given value. -/
def isMultipleOf (total : String) (factor : F64) : Bool :=
  let price := (parsePrice total).1
  (F64.mod price factor).isZero

/-- The body of the loop over the items: the points after one item. -/
def itemStep (conv : F64 → Int) (points : Int) (item : Item) : Int :=
  let trimmedLength := byteLen (trimSpace item.ShortDescription.data)
  if trimmedLength % 3 = 0 then
    let itemPrice := (parsePrice item.Price).1
    wrap64 (points + F64.toInt conv (F64.ceil (F64.mul itemPrice const02)))
  else points

/-- The function calculatePoints calculates points for a given receipt based on rules.
The parameter `conv` is the implementation-dependent result of converting to `int` a
float that does not fit. -/
def calculatePoints (conv : F64 → Int) (receipt : Receipt) : Int :=
  let points : Int := 0
  let points := wrap64 (points + countAlphanumeric receipt.Retailer)
  let points := if isRoundDollar receipt.Total then wrap64 (points + 50) else points
  let points := if isMultipleOf receipt.Total const025 then wrap64 (points + 25) else points
  let points := wrap64 (points + wrap64 (((receipt.Items.toList.length : Int) / 2) * 5))
  let points := receipt.Items.toList.foldl (itemStep conv) points
  let date := orZero (parseDate receipt.PurchaseDate.data)
  let points := if date.day % 2 ≠ 0 then wrap64 (points + 6) else points
  let time := orZero (parseClock receipt.PurchaseTime.data)
  let points := if time.hour = 14 then wrap64 (points + 10) else points
  points

/-- The function generateUUID creates a consistent UUID for a receipt based on its content. -/
def generateUUID (lib : IdentityLib) (receipt : Receipt) : String :=
  let receiptBytes := lib.jsonMarshal receipt
  let hash := lib.sha256Sum receiptBytes
  lib.newSHA1String hash

/-- Response of the handler processReceipt. -/
inductive ProcessResponse where
  | badRequest : ProcessResponse
  | ok (id : String) : ProcessResponse
  deriving DecidableEq, Repr

/-- Response of the handler getPoints. -/
inductive PointsResponse where
  | notFound : PointsResponse
  | ok (points : Int) : PointsResponse
  deriving DecidableEq, Repr

/-- The handler processReceipt (POST /receipts/process).  The argument `body` is the result
of decoding the request body, `none` when decoding fails. -/
def processReceipt (lib : IdentityLib) (conv : F64 → Int) (receipts : Store)
    (body : Option Receipt) : Store × ProcessResponse :=
  match body with
  | none => (receipts, ProcessResponse.badRequest)
  | some receipt =>
    let id := generateUUID lib receipt
    let receipts :=
      match receipts id with
      | some _ => receipts
      | none => receipts.set id { ID := id, Points := calculatePoints conv receipt }
    (receipts, ProcessResponse.ok id)

/-- The handler getPoints (GET /receipts/{id}/points). -/
def getPoints (receipts : Store) (id : String) : PointsResponse :=
  match receipts id with
  | some receiptPoints => PointsResponse.ok receiptPoints.Points
  | none => PointsResponse.notFound

/-- The store step of processReceipt on a decoded receipt: the spec's `Submit`. -/
def submit (lib : IdentityLib) (conv : F64 → Int) (receipts : Store) (receipt : Receipt) :
    Store × ProcessResponse :=
  processReceipt lib conv receipts (some receipt)

/-! ## Sequences of submissions -/

/-- The store after submitting the receipts of a list, in order. -/
def submitAll (lib : IdentityLib) (conv : F64 → Int) (receipts : Store) :
    List Receipt → Store
  | [] => receipts
  | r :: rs => submitAll lib conv (submit lib conv receipts r).1 rs

/-- The contribution of one item in the loop over the items: the float64 computation
`int(math.Ceil(itemPrice * 0.2))` when the byte length of the trimmed description is
divisible by 3, and nothing otherwise. -/
def itemPoints (conv : F64 → Int) (item : Item) : Int :=
  if byteLen (trimSpace item.ShortDescription.data) % 3 = 0 then
    F64.toInt conv (F64.ceil (F64.mul (parsePrice item.Price).1 const02))
  else 0

/-- The implementation-dependent conversion on amd64: every float that does not fit an
`int` converts to the smallest `int`. -/
def convAmd64 : F64 → Int := fun _ => -9223372036854775808

/-- An instance of the library parameters for evaluating the store operations on concrete
receipts: the serialisation lists the code points of retailer and total, and the two hash
steps keep them, so that the identifier spells out retailer and total. -/
def sampleLib : IdentityLib where
  jsonMarshal := fun r => (r.Retailer.data ++ r.Total.data).map Char.toNat
  sha256Sum := fun b => b
  newSHA1String := fun b => String.mk (b.map Char.ofNat)

/-- The receipt of `TestCalculatePoints`. -/
def testReceipt : Receipt :=
  { Retailer := "Target", PurchaseDate := "2022-01-01", PurchaseTime := "14:30",
    Items := Slice.of [⟨"Mountain Dew 12PK", "6.49"⟩, ⟨"Emils Cheese Pizza", "12.25"⟩],
    Total := "18.74" }

/-- The receipt of `TestCalculatePoints_Example1` (and of `TestGenerateUUID`, with the first
item only and total 6.49). -/
def exampleReceipt1 : Receipt :=
  { Retailer := "Target", PurchaseDate := "2022-01-01", PurchaseTime := "13:01",
    Items := Slice.of [⟨"Mountain Dew 12PK", "6.49"⟩, ⟨"Emils Cheese Pizza", "12.25"⟩,
      ⟨"Knorr Creamy Chicken", "1.26"⟩, ⟨"Doritos Nacho Cheese", "3.35"⟩,
      ⟨"   Klarbrunn 12-PK 12 FL OZ  ", "12.00"⟩],
    Total := "35.35" }

/-- The receipt of `TestCalculatePoints_Example2`. -/
def exampleReceipt2 : Receipt :=
  { Retailer := "M&M Corner Market", PurchaseDate := "2022-03-20", PurchaseTime := "14:33",
    Items := Slice.of [⟨"Gatorade", "2.25"⟩, ⟨"Gatorade", "2.25"⟩, ⟨"Gatorade", "2.25"⟩,
      ⟨"Gatorade", "2.25"⟩],
    Total := "9.00" }

/-- The receipt of `TestGenerateUUID`. -/
def uuidReceipt : Receipt :=
  { Retailer := "Target", PurchaseDate := "2022-01-01", PurchaseTime := "13:01",
    Items := Slice.of [⟨"Mountain Dew 12PK", "6.49"⟩], Total := "6.49" }

/-! ## Specification-side notions -/

/-- Specification: an ASCII letter (a-z, A-Z) or an ASCII digit (0-9). -/
def IsAsciiAlnum (c : Char) : Prop :=
  ('a' ≤ c ∧ c ≤ 'z') ∨ ('A' ≤ c ∧ c ≤ 'Z') ∨ ('0' ≤ c ∧ c ≤ '9')

instance (c : Char) : Decidable (IsAsciiAlnum c) := by unfold IsAsciiAlnum; infer_instance

/-- Specification: the number written by a string of decimal digits. -/
def decimalValue (ds : List Char) : Nat := ds.foldl (fun a c => a * 10 + digitVal c) 0

/-- Specification: the amount in cents written by a non-negative decimal string with two
fractional digits: one or more digits, a point, two digits. -/
def centsOf (s : List Char) : Option Nat :=
  let whole := s.takeWhile (fun c => c ≠ '.')
  match s.dropWhile (fun c => c ≠ '.') with
  | [_, d1, d2] =>
    if whole ≠ [] ∧ (∀ c ∈ whole, isDigit c = true) ∧ isDigit d1 = true ∧ isDigit d2 = true then
      some (decimalValue whole * 100 + digitVal d1 * 10 + digitVal d2)
    else none
  | _ => none

/-- Specification: ASCII white space (space, tab, line feed, vertical tab, form feed,
carriage return). -/
def isAsciiSpace (c : Char) : Bool := c == ' ' || (decide (9 ≤ c.toNat) && decide (c.toNat ≤ 13))

/-- Specification: length of a description after trimming leading and trailing white
space. -/
def trimmedLength (s : List Char) : Nat :=
  ((s.dropWhile isAsciiSpace).rdropWhile isAsciiSpace).length

/-- Specification: Gregorian leap years. -/
def leapYear (y : Nat) : Bool := (decide (y % 4 = 0) && decide (y % 100 ≠ 0)) || decide (y % 400 = 0)

/-- Specification: number of days of month `m` (1 to 12) in year `y`. -/
def monthLength (y m : Nat) : Nat :=
  ([31, if leapYear y then 29 else 28, 31, 30, 31, 30, 31, 31, 30, 31, 30, 31] : List Nat).getD
    (m - 1) 0

/-- Specification: the day of month of a valid `YYYY-MM-DD` calendar date. -/
def dayOfDate (s : List Char) : Option Nat :=
  match s with
  | [y0, y1, y2, y3, s1, m0, m1, s2, d0, d1] =>
    let y := decimalValue [y0, y1, y2, y3]
    let m := decimalValue [m0, m1]
    let d := decimalValue [d0, d1]
    if s1 = '-' ∧ s2 = '-' ∧ (∀ c ∈ [y0, y1, y2, y3, m0, m1, d0, d1], isDigit c = true)
        ∧ 1 ≤ m ∧ m ≤ 12 ∧ 1 ≤ d ∧ d ≤ monthLength y m then some d
    else none
  | _ => none

/-- Specification: the hour of a valid 24-hour `HH:MM` time. -/
def hourOfTime (s : List Char) : Option Nat :=
  match s with
  | [h0, h1, s1, m0, m1] =>
    let h := decimalValue [h0, h1]
    let m := decimalValue [m0, m1]
    if s1 = ':' ∧ (∀ c ∈ [h0, h1, m0, m1], isDigit c = true) ∧ h < 24 ∧ m < 60 then some h
    else none
  | _ => none

/-- Specification: an amount of `n` cents as a number of dollars. -/
def dollars (n : Nat) : ℚ := (n : ℚ) / 100

/-- Specification: the amount written by a price or total string, 0 when it is not a
non-negative decimal string with two fractional digits. -/
def amountOf (s : String) : ℚ := dollars ((centsOf s.data).getD 0)

/-- Specification of rule 5 for one item: `ceil(price * 0.2)` when the trimmed length of
the description is divisible by 3. -/
def specItemPoints (item : Item) : Int :=
  if trimmedLength item.ShortDescription.data % 3 = 0 then ⌈amountOf item.Price * (2 / 10)⌉
  else 0

/-- Specification: the sum of the seven rule contributions. -/
def specPoints (r : Receipt) : Int :=
  ((r.Retailer.data.countP (fun c => decide (IsAsciiAlnum c)) : Nat) : Int)
    + (if Int.fract (amountOf r.Total) = 0 then 50 else 0)
    + (if Int.fract (amountOf r.Total / (25 / 100)) = 0 then 25 else 0)
    + 5 * ((r.Items.toList.length / 2 : Nat) : Int)
    + ((r.Items.toList.map specItemPoints).sum)
    + (if ((dayOfDate r.PurchaseDate.data).getD 0) % 2 = 1 then 6 else 0)
    + (if (hourOfTime r.PurchaseTime.data).getD 0 = 14 then 10 else 0)

/-- Specification of rule 5 for one item, in integer arithmetic on cents. -/
def specItemCents (item : Item) : Int :=
  if trimmedLength item.ShortDescription.data % 3 = 0 then
    ((((centsOf item.Price.data).getD 0 + 499) / 500 : Nat) : Int)
  else 0

/-- The sum of the seven rule contributions, in integer arithmetic on cents. -/
def specPointsCents (r : Receipt) : Int :=
  ((r.Retailer.data.countP (fun c => decide (IsAsciiAlnum c)) : Nat) : Int)
    + (if (centsOf r.Total.data).getD 0 % 100 = 0 then 50 else 0)
    + (if (centsOf r.Total.data).getD 0 % 25 = 0 then 25 else 0)
    + 5 * ((r.Items.toList.length / 2 : Nat) : Int)
    + ((r.Items.toList.map specItemCents).sum)
    + (if ((dayOfDate r.PurchaseDate.data).getD 0) % 2 = 1 then 6 else 0)
    + (if (hourOfTime r.PurchaseTime.data).getD 0 = 14 then 10 else 0)

/-- The precondition of the scoring contract: a valid calendar date, a valid 24-hour time,
total and item prices that are non-negative decimal strings with two fractional digits,
and ASCII item descriptions. -/
def ValidReceipt (r : Receipt) : Prop :=
  (dayOfDate r.PurchaseDate.data).isSome = true
    ∧ (hourOfTime r.PurchaseTime.data).isSome = true
    ∧ (centsOf r.Total.data).isSome = true
    ∧ ∀ item ∈ r.Items.toList, (centsOf item.Price.data).isSome = true
        ∧ ∀ c ∈ item.ShortDescription.data, c.toNat < 128

instance (r : Receipt) : Decidable (ValidReceipt r) := by unfold ValidReceipt; infer_instance

/-- The total and every item price are below `10^13` (that is, `10^15` cents). -/
def SmallAmounts (r : Receipt) : Prop :=
  (centsOf r.Total.data).getD 0 < 10 ^ 15
    ∧ ∀ item ∈ r.Items.toList, (centsOf item.Price.data).getD 0 < 10 ^ 15

instance (r : Receipt) : Decidable (SmallAmounts r) := by unfold SmallAmounts; infer_instance

/-- A valid receipt with a total of fifteen integer digits: `140737488355328.26`. -/
def largeTotalReceipt : Receipt :=
  { Retailer := "Target", PurchaseDate := "2022-01-02", PurchaseTime := "13:01",
    Items := Slice.of [], Total := "140737488355328.26" }

/-- A receipt with one item of negative price. -/
def negativePriceReceipt : Receipt :=
  { Retailer := "", PurchaseDate := "2022-01-02", PurchaseTime := "13:01",
    Items := Slice.of [⟨"", "-100.00"⟩], Total := "0.01" }

/-- The price parses (or fails to parse, giving 0) to a finite float between 0 and `2^53`. -/
def priceInRange (price : String) : Bool :=
  match (parsePrice price).1 with
  | F64.fin k => decide (0 ≤ k) && decide (k ≤ 9007199254740992 * (unit : Int))
  | _ => false

/-- The receipt with its items replaced by the given sequence. -/
def withItems (r : Receipt) (items : List Item) : Receipt := { r with Items := Slice.of items }

/-- A receipt whose only item has a description of two characters, three bytes. -/
def accentReceipt : Receipt :=
  { Retailer := "", PurchaseDate := "2022-01-02", PurchaseTime := "13:01",
    Items := Slice.of [⟨"éa", "5.00"⟩], Total := "0.01" }

/-- The contribution of the two rules on the total: 50 for a round dollar amount, 25 for a
multiple of 0.25. -/
def totalRules (total : String) : Int :=
  (if isRoundDollar total then 50 else 0) + (if isMultipleOf total const025 then 25 else 0)

/-- The contribution of the rule on the purchase date: 6 if the day of the parsed date (the
zero time when parsing fails) is odd. -/
def dayRule (purchaseDate : String) : Int :=
  if (orZero (parseDate purchaseDate.data)).day % 2 ≠ 0 then 6 else 0

/-- The contribution of the rule on the purchase time: 10 if the hour of the parsed time (the
zero time when parsing fails) is 14. -/
def timeRule (purchaseTime : String) : Int :=
  if (orZero (parseClock purchaseTime.data)).hour = 14 then 10 else 0

/-- The receipt with its total replaced. -/
def withTotal (r : Receipt) (total : String) : Receipt := { r with Total := total }

/-- The receipt with its purchase date replaced. -/
def withDate (r : Receipt) (purchaseDate : String) : Receipt :=
  { r with PurchaseDate := purchaseDate }

/-- The receipt with its purchase time replaced. -/
def withTime (r : Receipt) (purchaseTime : String) : Receipt :=
  { r with PurchaseTime := purchaseTime }

/-- The call `strconv.ParseFloat(s, 64)` fails with a syntax error: the string is neither a
special value nor a well-formed decimal or hexadecimal floating-point literal. -/
def isSyntaxError (s : String) : Bool := (special s.data).isNone && (readFloat s.data).isNone

/-- The implementation-dependent conversion on arm64: NaN converts to 0, and a float that
does not fit saturates to the nearest end of the range of `int`. -/
def convArm64 : F64 → Int
  | F64.nan => 0
  | F64.inf neg => if neg then -9223372036854775808 else 9223372036854775807
  | F64.fin k => if k < 0 then -9223372036854775808 else 9223372036854775807

/-- The receipt of `TestCalculatePoints` with the purchase time 15:30. -/
def threePmReceipt : Receipt := withTime testReceipt "15:30"

/-- A receipt on which only the rule on the purchase date can contribute. -/
def bareReceipt (purchaseDate : String) : Receipt :=
  { Retailer := "", PurchaseDate := purchaseDate, PurchaseTime := "13:01",
    Items := Slice.null, Total := "0.01" }

/-- Specification: a necessary condition for a string to write a decimal number: it consists
of decimal digits, signs, a decimal point and an exponent mark only. -/
def decimalChars (s : String) : Bool :=
  s.data.all (fun c => isDigit c || c == '+' || c == '-' || c == '.' || c == 'e' || c == 'E')

/-! ## encoding/json, crypto/sha256, crypto/sha1 and github.com/google/uuid -/

/-- UTF-8 encoding of one character, as byte values. -/
def utf8Encode (c : Char) : List Nat :=
  let v := c.toNat
  if v < 128 then [v]
  else if v < 2048 then [192 + v / 64, 128 + v % 64]
  else if v < 65536 then [224 + v / 4096, 128 + v / 64 % 64, 128 + v % 64]
  else [240 + v / 262144, 128 + v / 4096 % 64, 128 + v / 64 % 64, 128 + v % 64]

/-- The bytes of a string. -/
def utf8 : List Char → List Nat
  | [] => []
  | c :: cs => utf8Encode c ++ utf8 cs

/-- The digit `hex[n]` of the table `"0123456789abcdef"`. -/
def hexDigit (n : Nat) : Char := "0123456789abcdef".data.getD n '0'

/-- What `appendString` of encoding/json, with HTML escaping as `json.Marshal` sets it,
writes for one character of a string.  The flag `shortEscapes` is the library version:
Go 1.22 and later write `\b` and `\f` for U+0008 and U+000C, earlier versions write
`\u0008` and `\u000c`. -/
def escapeChar (shortEscapes : Bool) (c : Char) : List Char :=
  let v := c.toNat
  if v = 92 ∨ v = 34 then ['\\', c]
  else if v = 8 ∧ shortEscapes = true then ['\\', 'b']
  else if v = 12 ∧ shortEscapes = true then ['\\', 'f']
  else if v = 10 then ['\\', 'n']
  else if v = 13 then ['\\', 'r']
  else if v = 9 then ['\\', 't']
  else if v < 32 ∨ v = 60 ∨ v = 62 ∨ v = 38 then
    ['\\', 'u', '0', '0', hexDigit (v / 16), hexDigit (v % 16)]
  else if v = 8232 ∨ v = 8233 then ['\\', 'u', '2', '0', '2', hexDigit (v % 16)]
  else [c]

/-- The characters of a string between the quotes of its JSON encoding. -/
def escapeString (shortEscapes : Bool) : List Char → List Char
  | [] => []
  | c :: cs => escapeChar shortEscapes c ++ escapeString shortEscapes cs

/-- The JSON encoding of a string. -/
def jsonString (shortEscapes : Bool) (s : String) : List Char :=
  '"' :: escapeString shortEscapes s.data ++ ['"']

/-- The JSON encoding of an `Item`: its fields in declaration order under their tags. -/
def jsonItem (shortEscapes : Bool) (item : Item) : List Char :=
  "\x7b\"shortDescription\":".data ++ jsonString shortEscapes item.ShortDescription
    ++ ",\"price\":".data ++ jsonString shortEscapes item.Price ++ ['}']

/-- The elements of a JSON array, separated by commas. -/
def jsonElems (shortEscapes : Bool) : List Item → List Char
  | [] => []
  | [item] => jsonItem shortEscapes item
  | item :: rest => jsonItem shortEscapes item ++ ',' :: jsonElems shortEscapes rest

/-- The JSON encoding of a slice of items: `null` for the nil slice, an array otherwise. -/
def jsonItems (shortEscapes : Bool) : Slice Item → List Char
  | Slice.null => "null".data
  | Slice.of elems => '[' :: jsonElems shortEscapes elems ++ [']']

/-- The JSON text that `json.Marshal` produces for a receipt: the fields in declaration
order under the names of their tags.  The strings of a receipt are sequences of Unicode
characters, as decoding a request body gives them. -/
def jsonReceipt (shortEscapes : Bool) (receipt : Receipt) : List Char :=
  "\x7b\"retailer\":".data ++ jsonString shortEscapes receipt.Retailer
    ++ ",\"purchaseDate\":".data ++ jsonString shortEscapes receipt.PurchaseDate
    ++ ",\"purchaseTime\":".data ++ jsonString shortEscapes receipt.PurchaseTime
    ++ ",\"items\":".data ++ jsonItems shortEscapes receipt.Items
    ++ ",\"total\":".data ++ jsonString shortEscapes receipt.Total ++ ['}']

/-- The function `json.Marshal` on a receipt: the bytes of its JSON text. -/
def jsonMarshal (shortEscapes : Bool) (receipt : Receipt) : List Nat :=
  utf8 (jsonReceipt shortEscapes receipt)

/-- Rotation of a 32-bit word to the right. -/
def rotr32 (x n : Nat) : Nat := ((x >>> n) ||| (x <<< (32 - n))) % 4294967296

/-- Rotation of a 32-bit word to the left. -/
def rotl32 (x n : Nat) : Nat := ((x <<< n) ||| (x >>> (32 - n))) % 4294967296

/-- Complement of a 32-bit word. -/
def not32 (x : Nat) : Nat := 4294967295 - x % 4294967296

/-- The last `n` bytes of a number, most significant first. -/
def beBytes : Nat → Nat → List Nat
  | 0, _ => []
  | n + 1, v => beBytes n (v / 256) ++ [v % 256]

/-- The 32-bit words of a byte sequence, big-endian. -/
def beWords : List Nat → List Nat
  | a :: b :: c :: d :: rest => (((a * 256 + b) * 256 + c) * 256 + d) :: beWords rest
  | _ => []

/-- The padded message of SHA-1 and SHA-256: the message, the byte 0x80, zeros up to 56
modulo 64, and the length in bits as 8 bytes. -/
def mdPad (msg : List Nat) : List Nat :=
  msg ++ 128 :: List.replicate ((119 - msg.length % 64) % 64) 0 ++ beBytes 8 (8 * msg.length)

/-- The blocks of 16 words of a word sequence. -/
def blocks : Nat → List Nat → List (List Nat)
  | 0, _ => []
  | n + 1, ws => ws.take 16 :: blocks n (ws.drop 16)

/-- The round constants of SHA-256. -/
def sha256K : List Nat :=
  [0x428a2f98, 0x71374491, 0xb5c0fbcf, 0xe9b5dba5, 0x3956c25b, 0x59f111f1, 0x923f82a4,
   0xab1c5ed5, 0xd807aa98, 0x12835b01, 0x243185be, 0x550c7dc3, 0x72be5d74, 0x80deb1fe,
   0x9bdc06a7, 0xc19bf174, 0xe49b69c1, 0xefbe4786, 0x0fc19dc6, 0x240ca1cc, 0x2de92c6f,
   0x4a7484aa, 0x5cb0a9dc, 0x76f988da, 0x983e5152, 0xa831c66d, 0xb00327c8, 0xbf597fc7,
   0xc6e00bf3, 0xd5a79147, 0x06ca6351, 0x14292967, 0x27b70a85, 0x2e1b2138, 0x4d2c6dfc,
   0x53380d13, 0x650a7354, 0x766a0abb, 0x81c2c92e, 0x92722c85, 0xa2bfe8a1, 0xa81a664b,
   0xc24b8b70, 0xc76c51a3, 0xd192e819, 0xd6990624, 0xf40e3585, 0x106aa070, 0x19a4c116,
   0x1e376c08, 0x2748774c, 0x34b0bcb5, 0x391c0cb3, 0x4ed8aa4a, 0x5b9cca4f, 0x682e6ff3,
   0x748f82ee, 0x78a5636f, 0x84c87814, 0x8cc70208, 0x90befffa, 0xa4506ceb, 0xbef9a3f7,
   0xc67178f2]

/-- The initial hash value of SHA-256. -/
def sha256Init : List Nat :=
  [0x6a09e667, 0xbb67ae85, 0x3c6ef372, 0xa54ff53a, 0x510e527f, 0x9b05688c, 0x1f83d9ab,
   0x5be0cd19]

/-- The message schedule of SHA-256: `n` more words after a window of the last 16. -/
def sha256Schedule : Nat → List Nat → List Nat
  | n + 1, w0 :: w1 :: w2 :: w3 :: w4 :: w5 :: w6 :: w7 :: w8 :: w9 :: w10 :: w11 :: w12
      :: w13 :: w14 :: w15 :: [] =>
    let s0 := rotr32 w1 7 ^^^ rotr32 w1 18 ^^^ (w1 >>> 3)
    let s1 := rotr32 w14 17 ^^^ rotr32 w14 19 ^^^ (w14 >>> 10)
    let w16 := (w0 + s0 + w9 + s1) % 4294967296
    w0 :: sha256Schedule n [w1, w2, w3, w4, w5, w6, w7, w8, w9, w10, w11, w12, w13, w14,
      w15, w16]
  | _, ws => ws

/-- One round of the SHA-256 compression function with constant plus schedule word `kw`. -/
def sha256Round (state : List Nat) (kw : Nat × Nat) : List Nat :=
  match state with
  | [a, b, c, d, e, f, g, h] =>
    let s1 := rotr32 e 6 ^^^ rotr32 e 11 ^^^ rotr32 e 25
    let ch := (e &&& f) ^^^ (not32 e &&& g)
    let t1 := h + s1 + ch + kw.1 + kw.2
    let s0 := rotr32 a 2 ^^^ rotr32 a 13 ^^^ rotr32 a 22
    let maj := (a &&& b) ^^^ (a &&& c) ^^^ (b &&& c)
    let t2 := s0 + maj
    [(t1 + t2) % 4294967296, a, b, c, (d + t1) % 4294967296, e, f, g]
  | _ => state

/-- Word-wise sum of two states modulo 2^32. -/
def addWords : List Nat → List Nat → List Nat
  | x :: xs, y :: ys => (x + y) % 4294967296 :: addWords xs ys
  | _, _ => []

/-- The SHA-256 compression of one block into the state. -/
def sha256Block (state block : List Nat) : List Nat :=
  addWords state ((sha256K.zip (sha256Schedule 48 block)).foldl sha256Round state)

/-- The function `sha256.Sum256`: the SHA-256 checksum of the data, 32 bytes. -/
def sha256Sum256 (data : List Nat) : List Nat :=
  let padded := mdPad data
  let state := (blocks (padded.length / 64) (beWords padded)).foldl sha256Block sha256Init
  state.foldr (fun w acc => beBytes 4 w ++ acc) []

/-- The initial hash value of SHA-1. -/
def sha1Init : List Nat := [0x67452301, 0xefcdab89, 0x98badcfe, 0x10325476, 0xc3d2e1f0]

/-- The message schedule of SHA-1: `n` more words after a window of the last 16. -/
def sha1Schedule : Nat → List Nat → List Nat
  | n + 1, w0 :: w1 :: w2 :: w3 :: w4 :: w5 :: w6 :: w7 :: w8 :: w9 :: w10 :: w11 :: w12
      :: w13 :: w14 :: w15 :: [] =>
    let w16 := rotl32 (w13 ^^^ w8 ^^^ w2 ^^^ w0) 1
    w0 :: sha1Schedule n [w1, w2, w3, w4, w5, w6, w7, w8, w9, w10, w11, w12, w13, w14,
      w15, w16]
  | _, ws => ws

/-- One round of the SHA-1 compression function: `tw` is the round number and the
schedule word. -/
def sha1Round (state : List Nat) (tw : Nat × Nat) : List Nat :=
  match state with
  | [a, b, c, d, e] =>
    let f :=
      if tw.1 < 20 then (b &&& c) ||| (not32 b &&& d)
      else if tw.1 < 40 then b ^^^ c ^^^ d
      else if tw.1 < 60 then (b &&& c) ||| (b &&& d) ||| (c &&& d)
      else b ^^^ c ^^^ d
    let k :=
      if tw.1 < 20 then 0x5a827999
      else if tw.1 < 40 then 0x6ed9eba1
      else if tw.1 < 60 then 0x8f1bbcdc
      else 0xca62c1d6
    [(rotl32 a 5 + f + e + k + tw.2) % 4294967296, a, rotl32 b 30, c, d]
  | _ => state

/-- The SHA-1 compression of one block into the state. -/
def sha1Block (state block : List Nat) : List Nat :=
  addWords state (((List.range 80).zip (sha1Schedule 64 block)).foldl sha1Round state)

/-- The SHA-1 checksum of the data, 20 bytes. -/
def sha1Sum (data : List Nat) : List Nat :=
  let padded := mdPad data
  let state := (blocks (padded.length / 64) (beWords padded)).foldl sha1Block sha1Init
  state.foldr (fun w acc => beBytes 4 w ++ acc) []

/-- The value `uuid.NameSpaceOID`, 6ba7b812-9dad-11d1-80b4-00c04fd430c8. -/
def nameSpaceOID : List Nat :=
  [0x6b, 0xa7, 0xb8, 0x12, 0x9d, 0xad, 0x11, 0xd1, 0x80, 0xb4, 0x00, 0xc0, 0x4f, 0xd4, 0x30,
   0xc8]

/-- The function `uuid.NewSHA1`: the first 16 bytes of the SHA-1 checksum of the name
space followed by the data, with version 5 in byte 6 and the RFC 4122 variant in byte 8. -/
def newSHA1 (space data : List Nat) : List Nat :=
  match (sha1Sum (space ++ data)).take 16 with
  | [b0, b1, b2, b3, b4, b5, b6, b7, b8, b9, b10, b11, b12, b13, b14, b15] =>
    [b0, b1, b2, b3, b4, b5, (b6 &&& 0x0f) ||| 0x50, b7, (b8 &&& 0x3f) ||| 0x80, b9, b10,
     b11, b12, b13, b14, b15]
  | other => other

/-- The function `hex.Encode`: two lower-case hexadecimal digits for each byte. -/
def hexEncode : List Nat → List Char
  | [] => []
  | b :: bs => hexDigit (b / 16) :: hexDigit (b % 16) :: hexEncode bs

/-- The method `String` of a UUID: the form xxxxxxxx-xxxx-xxxx-xxxx-xxxxxxxxxxxx. -/
def uuidString (u : List Nat) : String :=
  String.mk (hexEncode (u.take 4) ++ '-' :: hexEncode ((u.drop 4).take 2)
    ++ '-' :: hexEncode ((u.drop 6).take 2) ++ '-' :: hexEncode ((u.drop 8).take 2)
    ++ '-' :: hexEncode (u.drop 10))

/-- The value of a lower-case hexadecimal digit. -/
def hexVal (c : Char) : Nat :=
  if 48 ≤ c.toNat ∧ c.toNat ≤ 57 then c.toNat - 48 else c.toNat - 87

/-- Reading back one character of a JSON string: the character written first in the text
and the text after it. -/
def unescapeChar : List Char → Option (Char × List Char)
  | [] => none
  | c :: rest =>
    if c = '\\' then
      match rest with
      | [] => none
      | x :: r =>
        if x = 'b' then some (Char.ofNat 8, r)
        else if x = 'f' then some (Char.ofNat 12, r)
        else if x = 'n' then some (Char.ofNat 10, r)
        else if x = 'r' then some (Char.ofNat 13, r)
        else if x = 't' then some (Char.ofNat 9, r)
        else if x = 'u' then
          match r with
          | h1 :: h2 :: h3 :: h4 :: r4 =>
            some (Char.ofNat (((hexVal h1 * 16 + hexVal h2) * 16 + hexVal h3) * 16 + hexVal h4),
              r4)
          | _ => none
        else some (x, r)
    else some (c, rest)

/-- The libraries as the program calls them in `generateUUID`: `json.Marshal`,
`sha256.Sum256`, and `uuid.NewSHA1(uuid.NameSpaceOID, hash[:]).String()`, each as its
documentation describes it (encoding/json, FIPS 180-4, RFC 4122). -/
def goLib (shortEscapes : Bool) : IdentityLib where
  jsonMarshal := jsonMarshal shortEscapes
  sha256Sum := sha256Sum256
  newSHA1String := fun hash => uuidString (newSHA1 nameSpaceOID hash)

/-- The receipt of `TestGenerateUUID` without its item, the items being the nil slice: what
decoding gives for a request body without the key `items`, or with `"items": null`. -/
def nilItemsReceipt : Receipt :=
  { Retailer := "Target", PurchaseDate := "2022-01-01", PurchaseTime := "13:01",
    Items := Slice.null, Total := "6.49" }

/-- The receipt of `TestGenerateUUID` without its item, the items being an empty slice: what
decoding gives for a request body with `"items": []`. -/
def emptyItemsReceipt : Receipt :=
  { Retailer := "Target", PurchaseDate := "2022-01-01", PurchaseTime := "13:01",
    Items := Slice.of [], Total := "6.49" }

/-! ## Basic facts -/

theorem wrap64_add_left (a b : Int) : wrap64 (wrap64 a + b) = wrap64 (a + b) := by
  unfold wrap64; omega

theorem wrap64_add_right (a b : Int) : wrap64 (a + wrap64 b) = wrap64 (a + b) := by
  unfold wrap64; omega

theorem wrap64_idem (a : Int) : wrap64 (wrap64 a) = wrap64 a := by
  unfold wrap64; omega

theorem wrap64_of_range (a : Int) (h1 : -9223372036854775808 ≤ a)
    (h2 : a < 9223372036854775808) : wrap64 a = a := by
  unfold wrap64; omega

theorem itemStep_eq (conv : F64 → Int) (p : Int) (it : Item) :
    wrap64 (itemStep conv p it) = wrap64 (p + itemPoints conv it) := by
  unfold itemStep itemPoints
  by_cases h : byteLen (trimSpace it.ShortDescription.data) % 3 = 0
  · simp only [h, if_true, wrap64_idem]
  · simp only [h, if_false, add_zero]

theorem itemStep_range (conv : F64 → Int) (p : Int) (it : Item) (hp : wrap64 p = p) :
    wrap64 (itemStep conv p it) = itemStep conv p it := by
  unfold itemStep
  by_cases h : byteLen (trimSpace it.ShortDescription.data) % 3 = 0
  · simp only [h, if_true, wrap64_idem]
  · simp only [h, if_false, hp]

theorem foldl_itemStep (conv : F64 → Int) (items : List Item) (p : Int) (hp : wrap64 p = p) :
    items.foldl (itemStep conv) p = wrap64 (p + (items.map (itemPoints conv)).sum) := by
  induction items generalizing p with
  | nil => simp [hp]
  | cons it rest ih =>
    simp only [List.foldl_cons, List.map_cons, List.sum_cons]
    rw [ih _ (itemStep_range conv p it hp), ← wrap64_add_left, itemStep_eq, wrap64_add_left,
      add_assoc]

/-- The score is the reduction to `int` of the sum of the seven rule contributions. -/
theorem calculatePoints_eq (conv : F64 → Int) (r : Receipt) :
    calculatePoints conv r =
      wrap64 (countAlphanumeric r.Retailer
        + (if isRoundDollar r.Total then 50 else 0)
        + (if isMultipleOf r.Total const025 then 25 else 0)
        + ((r.Items.toList.length : Int) / 2) * 5
        + ((r.Items.toList.map (itemPoints conv)).sum)
        + (if (orZero (parseDate r.PurchaseDate.data)).day % 2 ≠ 0 then 6 else 0)
        + (if (orZero (parseClock r.PurchaseTime.data)).hour = 14 then 10 else 0)) := by
  unfold calculatePoints
  simp only []
  rw [foldl_itemStep _ _ _ (wrap64_idem _)]
  split_ifs <;> simp only [wrap64_add_left, wrap64_add_right, wrap64_idem, add_zero, zero_add]

/-! ## The receipt store -/

theorem submit_fst_apply (lib : IdentityLib) (conv : F64 → Int) (s : Store) (r : Receipt)
    (k : String) :
    (submit lib conv s r).1 k =
      if k = generateUUID lib r ∧ s (generateUUID lib r) = none then
        some ⟨generateUUID lib r, calculatePoints conv r⟩
      else s k := by
  unfold submit processReceipt
  simp only []
  cases h : s (generateUUID lib r) with
  | none =>
    by_cases hk : k = generateUUID lib r
    · simp [Store.set, hk]
    · simp [Store.set, hk]
  | some v =>
    by_cases hk : k = generateUUID lib r
    · simp [hk, h]
    · simp [hk]

theorem submit_snd (lib : IdentityLib) (conv : F64 → Int) (s : Store) (r : Receipt) :
    (submit lib conv s r).2 = ProcessResponse.ok (generateUUID lib r) := by
  unfold submit processReceipt
  rfl

theorem submit_keeps (lib : IdentityLib) (conv : F64 → Int) (s : Store) (r : Receipt)
    (k : String) (v : ReceiptPoints) (h : s k = some v) :
    (submit lib conv s r).1 k = some v := by
  rw [submit_fst_apply]
  split_ifs with hc
  · obtain ⟨hk, hn⟩ := hc
    rw [hk, hn] at h
    cases h
  · exact h

theorem submitAll_keeps (lib : IdentityLib) (conv : F64 → Int) (rs : List Receipt) (s : Store)
    (k : String) (v : ReceiptPoints) (h : s k = some v) :
    submitAll lib conv s rs k = some v := by
  induction rs generalizing s with
  | nil => exact h
  | cons r rest ih => exact ih _ (submit_keeps lib conv s r k v h)

theorem submitAll_append (lib : IdentityLib) (conv : F64 → Int) (rs ts : List Receipt)
    (s : Store) :
    submitAll lib conv s (rs ++ ts) = submitAll lib conv (submitAll lib conv s rs) ts := by
  induction rs generalizing s with
  | nil => rfl
  | cons r rest ih => exact ih _

/-- C3: Submit is idempotent.  Submitting a receipt a second time returns the same
identifier as the first submission and leaves the store exactly as the first submission
left it; in particular the entry stored under the identifier is unchanged. -/
theorem submit_idempotent (lib : IdentityLib) (conv : F64 → Int) (s : Store) (r : Receipt) :
    (submit lib conv (submit lib conv s r).1 r).2 = (submit lib conv s r).2
      ∧ (submit lib conv (submit lib conv s r).1 r).1 = (submit lib conv s r).1
      ∧ getPoints (submit lib conv (submit lib conv s r).1 r).1 (generateUUID lib r)
          = getPoints (submit lib conv s r).1 (generateUUID lib r) := by
  have hstore : (submit lib conv (submit lib conv s r).1 r).1 = (submit lib conv s r).1 := by
    funext k
    rw [submit_fst_apply lib conv (submit lib conv s r).1 r k]
    split_ifs with hc
    · obtain ⟨_, hn⟩ := hc
      rw [submit_fst_apply] at hn
      split_ifs at hn with hd
      simp only [true_and, not_not] at hd
      cases hs : s (generateUUID lib r) with
      | none => exact absurd hs hd
      | some v => rw [hs] at hn; cases hn
    · rfl
  refine ⟨?_, hstore, ?_⟩
  · rw [submit_snd, submit_snd]
  · rw [hstore]

/-- C4: stored scores never change.  If the identifier `k` has an entry in the store, then
after submitting any receipt the entry for `k` is the same, and after any sequence of
submissions the entry and the score returned by the lookup of `k` are still the same. -/
theorem stored_score_never_changes (lib : IdentityLib) (conv : F64 → Int) (s : Store)
    (k : String) (v : ReceiptPoints) (h : s k = some v) :
    (∀ r : Receipt, (submit lib conv s r).1 k = s k)
      ∧ (∀ rs : List Receipt, submitAll lib conv s rs k = s k
          ∧ getPoints (submitAll lib conv s rs) k = PointsResponse.ok v.Points) := by
  refine ⟨fun r => ?_, fun rs => ⟨?_, ?_⟩⟩
  · rw [submit_keeps lib conv s r k v h, h]
  · rw [submitAll_keeps lib conv rs s k v h, h]
  · unfold getPoints
    rw [submitAll_keeps lib conv rs s k v h]

/-- Witness for C4: a store holding one entry under the key `k`. -/
theorem stored_score_never_changes_witness :
    (∀ r : Receipt,
        (submit sampleLib convAmd64 (emptyStore.set "k" ⟨"k", 28⟩) r).1 "k"
          = (emptyStore.set "k" ⟨"k", 28⟩) "k")
      ∧ (∀ rs : List Receipt,
          submitAll sampleLib convAmd64 (emptyStore.set "k" ⟨"k", 28⟩) rs "k"
            = (emptyStore.set "k" ⟨"k", 28⟩) "k"
          ∧ getPoints (submitAll sampleLib convAmd64 (emptyStore.set "k" ⟨"k", 28⟩) rs) "k"
            = PointsResponse.ok 28) :=
  stored_score_never_changes sampleLib convAmd64 (emptyStore.set "k" ⟨"k", 28⟩) "k" ⟨"k", 28⟩
    (by simp [Store.set])

theorem submitAll_absent (lib : IdentityLib) (conv : F64 → Int) (rs : List Receipt)
    (s : Store) (k : String) (hs : s k = none) (h : ∀ r ∈ rs, generateUUID lib r ≠ k) :
    submitAll lib conv s rs k = none := by
  induction rs generalizing s with
  | nil => exact hs
  | cons r rest ih =>
    apply ih
    · rw [submit_fst_apply]
      split_ifs with hc
      · exact absurd hc.1.symm (h r (List.mem_cons_self _ _))
      · exact hs
    · intro t ht
      exact h t (List.mem_cons_of_mem _ ht)

/-- C5: the lookup of an identifier that was never submitted reports not-found.  Starting
from the empty store, after any sequence of submissions the lookup of an identifier that
differs from the identifier of every submitted receipt is not-found; and every lookup on
the empty store is not-found. -/
theorem lookup_never_submitted (lib : IdentityLib) (conv : F64 → Int) (rs : List Receipt)
    (k : String) (h : ∀ r ∈ rs, generateUUID lib r ≠ k) :
    getPoints (submitAll lib conv emptyStore rs) k = PointsResponse.notFound
      ∧ getPoints emptyStore k = PointsResponse.notFound := by
  constructor
  · unfold getPoints
    rw [submitAll_absent lib conv rs emptyStore k rfl h]
  · rfl

/-- Witness for C5: after submitting the two example receipts, an identifier that is
neither of theirs is not found. -/
theorem lookup_never_submitted_witness :
    getPoints (submitAll sampleLib convAmd64 emptyStore [exampleReceipt1, exampleReceipt2])
        "Walgreens2.65" = PointsResponse.notFound
      ∧ getPoints emptyStore "Walgreens2.65" = PointsResponse.notFound :=
  lookup_never_submitted sampleLib convAmd64 [exampleReceipt1, exampleReceipt2]
    "Walgreens2.65" (by decide)

/-- C6: Submit never fails and its result can be looked up.  Submit returns the identifier
of the receipt, the lookup of that identifier in the resulting store returns a score, and
when the identifier had no entry before, that score is the score of the receipt. -/
theorem submit_then_lookup (lib : IdentityLib) (conv : F64 → Int) (s : Store) (r : Receipt) :
    (submit lib conv s r).2 = ProcessResponse.ok (generateUUID lib r)
      ∧ (∃ p : Int, getPoints (submit lib conv s r).1 (generateUUID lib r)
            = PointsResponse.ok p)
      ∧ (s (generateUUID lib r) = none →
          getPoints (submit lib conv s r).1 (generateUUID lib r)
            = PointsResponse.ok (calculatePoints conv r)) := by
  refine ⟨submit_snd lib conv s r, ?_, ?_⟩
  · unfold getPoints
    rw [submit_fst_apply]
    cases hs : s (generateUUID lib r) with
    | none => exact ⟨calculatePoints conv r, by simp⟩
    | some v => exact ⟨v.Points, by simp⟩
  · intro hs
    unfold getPoints
    rw [submit_fst_apply]
    simp [hs]

/-- Witness for C6: submitting the first example receipt to the empty store; the lookup
returns its score. -/
theorem submit_then_lookup_witness :
    getPoints (submit sampleLib convAmd64 emptyStore exampleReceipt1).1
        (generateUUID sampleLib exampleReceipt1)
      = PointsResponse.ok (calculatePoints convAmd64 exampleReceipt1) :=
  (submit_then_lookup sampleLib convAmd64 emptyStore exampleReceipt1).2.2 rfl

/-! ## Counting alphanumeric characters, and the two rules on the total -/

theorem char_le_iff (c d : Char) : c ≤ d ↔ c.toNat ≤ d.toNat := Iff.rfl

theorem alnumClass_iff (c : Char) : alnumClass c = true ↔ IsAsciiAlnum c := by
  unfold alnumClass IsAsciiAlnum
  simp only [char_le_iff, Bool.or_eq_true, Bool.and_eq_true, decide_eq_true_eq]
  have h1 : 'a'.toNat = 97 := rfl
  have h2 : 'z'.toNat = 122 := rfl
  have h3 : 'A'.toNat = 65 := rfl
  have h4 : 'Z'.toNat = 90 := rfl
  have h5 : '0'.toNat = 48 := rfl
  have h6 : '9'.toNat = 57 := rfl
  rw [h1, h2, h3, h4, h5, h6]
  exact or_assoc

theorem findAllString_length (cls : Char → Bool) (s : List Char) :
    (findAllString cls s).length = s.countP cls := by
  induction s with
  | nil => rfl
  | cons c cs ih =>
    unfold findAllString
    by_cases h : cls c = true
    · simp [h, ih]
    · simp [h, ih]

theorem length_le_byteLen (s : List Char) : s.length ≤ byteLen s := by
  induction s with
  | nil => simp [byteLen]
  | cons c cs ih =>
    have hc : 0 < c.utf8Size := Char.utf8Size_pos c
    simp only [byteLen, List.map_cons, List.sum_cons, List.length_cons] at ih ⊢
    omega

set_option maxRecDepth 100000 in
theorem const1_eq : const1 = F64.fin (unit : Int) := by decide

set_option maxRecDepth 100000 in
theorem const025_eq : const025 = F64.fin ((unit / 4 : Nat) : Int) := by decide

theorem unit_eq : unit = 2 ^ 1074 := by
  unfold unit; rw [Nat.shiftLeft_eq, one_mul]

theorem unit_pos : 0 < unit := by rw [unit_eq]; exact Nat.two_pow_pos 1074

theorem unit_eq_quarter : unit = 2 ^ 1072 * 4 := by
  rw [unit_eq, show (1074 : Nat) = 1072 + 2 from rfl, Nat.pow_add]

theorem unit_div_four : unit / 4 = 2 ^ 1072 := by
  rw [unit_eq_quarter]; exact Nat.mul_div_cancel _ (by norm_num)

theorem countAlphanumeric_eq_countP (s : String) :
    countAlphanumeric s = ((s.data.countP (fun c => decide (IsAsciiAlnum c)) : Nat) : Int) := by
  unfold countAlphanumeric
  rw [findAllString_length]
  congr 2
  funext c
  rw [Bool.eq_iff_iff, alnumClass_iff, decide_eq_true_eq]

/-- C8: countAlphanumeric counts the characters that are ASCII letters or ASCII digits.
Every other character contributes nothing, so the count is additive over concatenation,
is unchanged by inserting a character that is not an ASCII letter or digit, and never
exceeds the length of the string (in characters, hence in bytes); the retailer
`M&M Corner Market` counts 14. -/
theorem countAlphanumeric_spec :
    (∀ s : String,
        countAlphanumeric s = ((s.data.countP (fun c => decide (IsAsciiAlnum c)) : Nat) : Int))
      ∧ (∀ s t : String, countAlphanumeric (s ++ t) = countAlphanumeric s + countAlphanumeric t)
      ∧ (∀ (s t : String) (c : Char), ¬ IsAsciiAlnum c →
          countAlphanumeric (s ++ String.singleton c ++ t)
            = countAlphanumeric s + countAlphanumeric t)
      ∧ (∀ s : String, countAlphanumeric s ≤ (s.length : Int)
          ∧ (s.length : Int) ≤ (byteLen s.data : Int))
      ∧ countAlphanumeric "M&M Corner Market" = 14 := by
  refine ⟨countAlphanumeric_eq_countP, ?_, ?_, ?_, ?_⟩
  · intro s t
    simp only [countAlphanumeric_eq_countP, String.data_append, List.countP_append]
    push_cast
    rfl
  · intro s t c hc
    simp only [countAlphanumeric_eq_countP, String.data_append, List.countP_append,
      String.singleton, List.countP_cons, List.countP_nil]
    simp [hc]
  · intro s
    constructor
    · rw [countAlphanumeric_eq_countP]
      exact_mod_cast List.countP_le_length _
    · exact_mod_cast length_le_byteLen s.data
  · decide

/-- Witness for C8: a non-ASCII letter and punctuation between two counted characters. -/
theorem countAlphanumeric_spec_witness :
    countAlphanumeric ("a" ++ String.singleton '&' ++ "b")
      = countAlphanumeric "a" + countAlphanumeric "b" :=
  countAlphanumeric_spec.2.2.1 "a" "b" '&' (by decide)

theorem mod_isZero_of_dvd (p : F64) (a b : Nat) (hb : 0 < b) (hab : b ∣ a)
    (h : (F64.mod p (F64.fin (a : Int))).isZero = true) :
    (F64.mod p (F64.fin (b : Int))).isZero = true := by
  have ha : 0 < a := by
    rcases Nat.eq_zero_or_pos a with h0 | h0
    · subst h0
      cases p <;> simp [F64.mod, F64.isZero] at h
    · exact h0
  cases p with
  | nan => simp [F64.mod, F64.isZero] at h
  | inf n => simp [F64.mod, F64.isZero] at h
  | fin k =>
    have ha' : (a : Int) ≠ 0 := by exact_mod_cast ha.ne'
    have hb' : (b : Int) ≠ 0 := by exact_mod_cast hb.ne'
    simp only [F64.mod, ha', hb', if_false, F64.isZero, decide_eq_true_eq] at h ⊢
    have h1 : (a : Int) ∣ k := Int.dvd_of_tmod_eq_zero h
    have h2 : (b : Int) ∣ k := dvd_trans (by exact_mod_cast hab) h1
    exact Int.tmod_eq_zero_of_dvd h2

theorem isRoundDollar_imp (total : String) (h : isRoundDollar total = true) :
    isMultipleOf total const025 = true := by
  unfold isRoundDollar at h
  unfold isMultipleOf
  simp only [const1_eq, const025_eq] at h ⊢
  refine mod_isZero_of_dvd _ unit (unit / 4) ?_ ?_ h
  · rw [unit_div_four]; exact Nat.two_pow_pos 1072
  · rw [unit_div_four, unit_eq_quarter]; exact Dvd.intro _ rfl

set_option maxRecDepth 100000 in
/-- C9: the round-dollar condition is a strict subset of the quarter-multiple condition.
For every total string a round-dollar total is a multiple of 0.25; the total `0.25` is a
multiple of 0.25 and not a round dollar; so the two total rules together contribute 0, 25
or 75 points, never 50. -/
theorem roundDollar_subset_quarter :
    (∀ total : String, isRoundDollar total = true → isMultipleOf total const025 = true)
      ∧ (isMultipleOf "0.25" const025 = true ∧ isRoundDollar "0.25" = false)
      ∧ (∀ total : String,
          ((if isRoundDollar total then 50 else 0)
              + (if isMultipleOf total const025 then 25 else 0) : Int) ∈ ({0, 25, 75} : Set Int)
          ∧ ((if isRoundDollar total then 50 else 0)
              + (if isMultipleOf total const025 then 25 else 0) : Int) ≠ 50) := by
  refine ⟨isRoundDollar_imp, ?_, ?_⟩
  · decide
  · intro total
    have h := isRoundDollar_imp total
    by_cases h1 : isRoundDollar total = true
    · simp [h1, h h1]
    · by_cases h2 : isMultipleOf total const025 = true
      · simp [h1, h2]
      · simp [h1, h2]

set_option maxRecDepth 100000 in
/-- Witness for C9: the total `9.00` of the second example is a round dollar, hence a
multiple of 0.25. -/
theorem roundDollar_subset_quarter_witness : isMultipleOf "9.00" const025 = true :=
  roundDollar_subset_quarter.1 "9.00" (by decide)

/-! ## Rounding to float64 -/

theorem ilog2Aux_spec (fuel n : Nat) (hn : 0 < n) (hf : n ≤ fuel) :
    2 ^ ilog2Aux fuel n ≤ n ∧ n < 2 ^ (ilog2Aux fuel n + 1) := by
  induction fuel generalizing n with
  | zero => omega
  | succ f ih =>
    unfold ilog2Aux
    by_cases h : n < 2
    · simp only [h, if_true]
      constructor <;> simp <;> omega
    · simp only [h, if_false]
      have h2 : 0 < n / 2 := Nat.div_pos (by omega) (by norm_num)
      have h3 : n / 2 ≤ f := by omega
      obtain ⟨a, b⟩ := ih (n / 2) h2 h3
      constructor
      · rw [pow_succ]; omega
      · rw [pow_succ]; omega

theorem ilog2_spec (n : Nat) (hn : 0 < n) : 2 ^ ilog2 n ≤ n ∧ n < 2 ^ (ilog2 n + 1) :=
  ilog2Aux_spec n n hn le_rfl

theorem ilog2_lt_of_lt (n e : Nat) (h : n < 2 ^ e) : ilog2 n < e ∨ (n = 0 ∧ e = 0) := by
  rcases Nat.eq_zero_or_pos n with h0 | h0
  · subst h0
    rcases Nat.eq_zero_or_pos e with he | he
    · right; exact ⟨rfl, he⟩
    · left
      have : ilog2 0 = 0 := rfl
      omega
  · left
    have h1 := (ilog2_spec n h0).1
    have h2 : 2 ^ ilog2 n < 2 ^ e := lt_of_le_of_lt h1 h
    exact (Nat.pow_lt_pow_iff_right (by norm_num)).1 h2

theorem ilog2_eq (n e : Nat) (h1 : 2 ^ e ≤ n) (h2 : n < 2 ^ (e + 1)) : ilog2 n = e := by
  have hn : 0 < n := lt_of_lt_of_le (Nat.two_pow_pos e) h1
  obtain ⟨a, b⟩ := ilog2_spec n hn
  have h3 : 2 ^ e < 2 ^ (ilog2 n + 1) := lt_of_le_of_lt h1 b
  have h4 : 2 ^ ilog2 n < 2 ^ (e + 1) := lt_of_le_of_lt a h2
  have h5 := (Nat.pow_lt_pow_iff_right (a := 2) (by norm_num)).1 h3
  have h6 := (Nat.pow_lt_pow_iff_right (a := 2) (by norm_num)).1 h4
  omega

theorem rne_bounds (N D : Nat) (hD : 0 < D) :
    2 * (rne N D * D) ≤ 2 * N + D ∧ 2 * N ≤ 2 * (rne N D * D) + D := by
  have h1 := Nat.div_add_mod N D
  have h2 := Nat.mod_lt N hD
  have h3 : D * (N / D) = N / D * D := Nat.mul_comm _ _
  unfold rne
  simp only []
  split_ifs <;> constructor <;> (try simp only [Nat.add_mul, one_mul]) <;> omega

theorem rne_near (q r D : Nat) (h : 2 * r < D) : rne (q * D + r) D = q := by
  have hD : 0 < D := by omega
  have hr : r < D := by omega
  have h1 : (q * D + r) / D = q := by
    rw [Nat.add_comm, Nat.add_mul_div_right _ _ hD, Nat.div_eq_of_lt hr, Nat.zero_add]
  have h2 : (q * D + r) % D = r := by
    rw [Nat.add_comm, Nat.add_mul_mod_self_right, Nat.mod_eq_of_lt hr]
  unfold rne
  simp only [h1, h2, h, if_true]

theorem rne_exact (q D : Nat) (hD : 0 < D) : rne (q * D) D = q := by
  have := rne_near q 0 D (by omega)
  simpa using this

theorem roundUnits_eq (N D : Nat) :
    roundUnits N D = rne N (D * 2 ^ (ilog2 (N / D) - 52)) * 2 ^ (ilog2 (N / D) - 52) := by
  unfold roundUnits
  simp only [Nat.shiftLeft_eq]

/-- Absolute error of rounding: below `2^(53+t)` units the result is within half of `2^t`. -/
theorem roundUnits_bounds (N D t : Nat) (hD : 0 < D) (h : N < D * 2 ^ (53 + t)) :
    2 * (roundUnits N D * D) ≤ 2 * N + D * 2 ^ t
      ∧ 2 * N ≤ 2 * (roundUnits N D * D) + D * 2 ^ t := by
  rw [roundUnits_eq]
  set j := ilog2 (N / D) - 52 with hj
  have hq : N / D < 2 ^ (53 + t) := Nat.div_lt_of_lt_mul h
  have hjt : j ≤ t := by
    rcases ilog2_lt_of_lt _ _ hq with h1 | ⟨_, h1⟩ <;> omega
  have hD' : 0 < D * 2 ^ j := Nat.mul_pos hD (Nat.two_pow_pos j)
  obtain ⟨a, b⟩ := rne_bounds N (D * 2 ^ j) hD'
  have hle : D * 2 ^ j ≤ D * 2 ^ t :=
    Nat.mul_le_mul_left D (Nat.pow_le_pow_right (by norm_num) hjt)
  have e : rne N (D * 2 ^ j) * 2 ^ j * D = rne N (D * 2 ^ j) * (D * 2 ^ j) := by ring
  rw [e]
  constructor <;> omega

/-- Rounding to a nearby grid point: if `N / D` lies in the binade of `2^e`, `K` is on the
grid of that binade and `N / D` exceeds `K` by less than half a step, the result is `K`. -/
theorem roundUnits_near (N D K e : Nat) (hD : 0 < D) (h1 : 2 ^ e * D ≤ N)
    (h2 : N < 2 ^ (e + 1) * D) (hK : 2 ^ (e - 52) ∣ K) (h3 : K * D ≤ N)
    (h4 : 2 * (N - K * D) < D * 2 ^ (e - 52)) : roundUnits N D = K := by
  rw [roundUnits_eq]
  have hq1 : 2 ^ e ≤ N / D := (Nat.le_div_iff_mul_le hD).2 h1
  have hq2 : N / D < 2 ^ (e + 1) := Nat.div_lt_of_lt_mul (by rw [Nat.mul_comm]; exact h2)
  rw [ilog2_eq _ e hq1 hq2]
  obtain ⟨m, rfl⟩ := hK
  have e1 : N = m * (D * 2 ^ (e - 52)) + (N - 2 ^ (e - 52) * m * D) := by
    have : m * (D * 2 ^ (e - 52)) = 2 ^ (e - 52) * m * D := by ring
    omega
  rw [e1, rne_near _ _ _ h4]
  ring

/-- Rounding is exact on the grid: `a * 2^s` with `a < 2^53` is a float. -/
theorem roundUnits_exact (D a s : Nat) (hD : 0 < D) (ha : a < 2 ^ 53) :
    roundUnits (a * 2 ^ s * D) D = a * 2 ^ s := by
  rw [roundUnits_eq, Nat.mul_div_cancel _ hD]
  set j := ilog2 (a * 2 ^ s) - 52 with hj
  have hlt : a * 2 ^ s < 2 ^ (53 + s) := by
    rw [pow_add]; exact Nat.mul_lt_mul_of_pos_right ha (Nat.two_pow_pos s)
  have hjs : j ≤ s := by
    rcases ilog2_lt_of_lt _ _ hlt with h1 | ⟨_, h1⟩ <;> omega
  have hpow : 2 ^ s = 2 ^ (s - j) * 2 ^ j := by
    rw [← pow_add]; congr 1; omega
  have e1 : a * 2 ^ s * D = (a * 2 ^ (s - j)) * (D * 2 ^ j) := by rw [hpow]; ring
  rw [e1, rne_exact _ _ (Nat.mul_pos hD (Nat.two_pow_pos j)), hpow]
  ring

theorem pow_v (a c : Nat) (h : 2 ^ a = c) : 2 ^ (a + 1020) = c * 2 ^ 1020 := by
  rw [pow_add, h]

theorem unit_v : unit = 18014398509481984 * 2 ^ 1020 := by
  rw [unit_eq]; exact pow_v 54 _ (by norm_num)

theorem pow1065_v : 2 ^ 1065 = 35184372088832 * 2 ^ 1020 := pow_v 45 _ (by norm_num)

theorem pow1118_v : 2 ^ (53 + 1065) = 316912650057057350374175801344 * 2 ^ 1020 :=
  pow_v 98 _ (by norm_num)

set_option maxRecDepth 100000 in
theorem const02_eq : const02 = F64.fin ((3602879701896397 <<< 1020 : Nat) : Int) := by decide

theorem const02_v : const02 = F64.fin ((3602879701896397 * 2 ^ 1020 : Nat) : Int) := by
  rw [const02_eq, Nat.shiftLeft_eq]

/-- Rounding of an amount of `n` cents, `n < 10^15`: the error is at most `2^-10`. -/
theorem cents_bounds (n : Nat) (hn : n < 10 ^ 15) :
    2 * (roundUnits (n * unit) 100 * 100) ≤ 2 * (n * unit) + 100 * 2 ^ 1065
      ∧ 2 * (n * unit) ≤ 2 * (roundUnits (n * unit) 100 * 100) + 100 * 2 ^ 1065 := by
  apply roundUnits_bounds _ 100 1065 (by norm_num)
  rw [unit_v, pow1118_v]
  have hv : 0 < 2 ^ 1020 := Nat.two_pow_pos 1020
  generalize 2 ^ 1020 = v at hv
  have h : n * 18014398509481984 < 100 * 316912650057057350374175801344 := by omega
  calc n * (18014398509481984 * v) = (n * 18014398509481984) * v := by ring
    _ < (100 * 316912650057057350374175801344) * v := Nat.mul_lt_mul_of_pos_right h hv
    _ = 100 * (316912650057057350374175801344 * v) := by ring

/-- Rounding with a small relative excess: a float `K = a * 2^s` is the result whenever
`N / D` exceeds it by at most `K * 2^-54`. -/
theorem roundUnits_rel (N D a s : Nat) (hD : 0 < D) (ha0 : 0 < a) (ha : a < 2 ^ 53)
    (h3 : a * 2 ^ s * D ≤ N) (h4 : (N - a * 2 ^ s * D) * 2 ^ 54 ≤ a * 2 ^ s * D) :
    roundUnits N D = a * 2 ^ s := by
  set K := a * 2 ^ s with hKdef
  have hK0 : 0 < K := Nat.mul_pos ha0 (Nat.two_pow_pos s)
  obtain ⟨he1, he2⟩ := ilog2_spec K hK0
  set e := ilog2 K with hedef
  have hKlt : K < 2 ^ (53 + s) := by
    rw [pow_add]; exact Nat.mul_lt_mul_of_pos_right ha (Nat.two_pow_pos s)
  have hes : e - 52 ≤ s := by
    have : 2 ^ e < 2 ^ (53 + s) := lt_of_le_of_lt he1 hKlt
    have := (Nat.pow_lt_pow_iff_right (a := 2) (by norm_num)).1 this
    omega
  have hg : 2 ^ (e - 52) ∣ K :=
    dvd_trans (pow_dvd_pow 2 hes) (Dvd.intro_left a rfl)
  have hpow : 2 ^ (e + 1) ≤ 2 ^ 53 * 2 ^ (e - 52) := by
    rw [← pow_add]; exact Nat.pow_le_pow_right (by norm_num) (by omega)
  have hKD : K * D < 2 ^ (e + 1) * D := Nat.mul_lt_mul_of_pos_right he2 hD
  have hKD2 : 2 ^ (e + 1) * D ≤ 2 ^ 53 * 2 ^ (e - 52) * D := Nat.mul_le_mul_right D hpow
  have h4' : 2 * (N - K * D) < D * 2 ^ (e - 52) := by
    have e1 : 2 ^ 53 * 2 ^ (e - 52) * D = 2 ^ 53 * (D * 2 ^ (e - 52)) := by ring
    rw [e1] at hKD2
    have e2 : (2 : Nat) ^ 54 = 18014398509481984 := by norm_num
    have e3 : (2 : Nat) ^ 53 = 9007199254740992 := by norm_num
    rw [e2] at h4
    rw [e3] at hKD2
    generalize D * 2 ^ (e - 52) = gD at hKD2 ⊢
    omega
  have hstep : K + 2 ^ (e - 52) ≤ 2 ^ (e + 1) := by
    obtain ⟨m, hm⟩ := hg
    have hsplit : 2 ^ (e + 1) = 2 ^ (e - 52) * 2 ^ (e + 1 - (e - 52)) := by
      rw [← pow_add]; congr 1; omega
    rw [hsplit, hm] at he2 ⊢
    have hmlt : m < 2 ^ (e + 1 - (e - 52)) := Nat.lt_of_mul_lt_mul_left he2
    calc 2 ^ (e - 52) * m + 2 ^ (e - 52) = 2 ^ (e - 52) * (m + 1) := by ring
      _ ≤ 2 ^ (e - 52) * 2 ^ (e + 1 - (e - 52)) := Nat.mul_le_mul_left _ hmlt
  apply roundUnits_near N D K e hD
  · exact le_trans (Nat.mul_le_mul_right D he1) h3
  · have h5 : N < (K + 2 ^ (e - 52)) * D := by
      have : (K + 2 ^ (e - 52)) * D = K * D + D * 2 ^ (e - 52) := by ring
      omega
    exact lt_of_lt_of_le h5 (Nat.mul_le_mul_right D hstep)
  · exact hg
  · exact h3
  · exact h4'

theorem grid_unique (x y v : Nat) (hv : 0 < v)
    (h1 : 2 * 18014398509481984 * x ≤ 2 * 18014398509481984 * y + 100 * (35184372088832 * v))
    (h2 : 2 * 18014398509481984 * y ≤ 2 * 18014398509481984 * x + 100 * (35184372088832 * v))
    (h3 : x + v ≤ y ∨ y + v ≤ x) : False := by
  omega

/-- If two multiples `a * v` and `b * v` of a positive `v` differ by less than `v`, then
`a = b`. -/
theorem grid_unique_mul (a b v : Nat) (hv : 0 < v)
    (h1 : 2 * 18014398509481984 * (a * v)
      ≤ 2 * 18014398509481984 * (b * v) + 100 * (35184372088832 * v))
    (h2 : 2 * 18014398509481984 * (b * v)
      ≤ 2 * 18014398509481984 * (a * v) + 100 * (35184372088832 * v)) : a = b := by
  by_contra hne
  rcases Nat.lt_or_ge a b with h | h
  · have h3 : (a + 1) * v ≤ b * v := Nat.mul_le_mul_right v h
    rw [Nat.add_mul, one_mul] at h3
    exact grid_unique (a * v) (b * v) v hv h1 h2 (Or.inl h3)
  · have h4 : b < a := lt_of_le_of_ne h (fun e => hne e.symm)
    have h3 : (b + 1) * v ≤ a * v := Nat.mul_le_mul_right v h4
    rw [Nat.add_mul, one_mul] at h3
    exact grid_unique (a * v) (b * v) v hv h1 h2 (Or.inr h3)

/-- An amount of `n` cents rounds to a multiple of 1.0 exactly when `n` is a multiple of
100 cents. -/
theorem cents_dvd_one (n : Nat) (hn : n < 10 ^ 15) :
    2 ^ 1074 ∣ roundUnits (n * unit) 100 ↔ n % 100 = 0 := by
  constructor
  · rintro ⟨c, hc⟩
    obtain ⟨h1, h2⟩ := cents_bounds n hn
    rw [hc] at h1 h2
    clear hc
    have hv : 0 < 2 ^ 1020 := Nat.two_pow_pos 1020
    rw [unit_v, pow1065_v] at h1 h2
    rw [pow_v 54 18014398509481984 (by norm_num)] at h1 h2
    generalize 2 ^ 1020 = v at hv h1 h2
    have e1 : 2 * (18014398509481984 * v * c * 100) = 2 * 18014398509481984 * ((100 * c) * v) := by ring
    have e2 : 2 * (n * (18014398509481984 * v)) = 2 * 18014398509481984 * (n * v) := by ring
    rw [e1, e2] at h1 h2
    have := grid_unique_mul (100 * c) n v hv h1 h2
    omega
  · intro h
    obtain ⟨b, hb⟩ : 100 ∣ n := Nat.dvd_of_mod_eq_zero h
    have hb53 : b < 2 ^ 53 := lt_of_le_of_lt (by omega : b ≤ 10 ^ 15) (by norm_num)
    have := roundUnits_exact 100 b 1074 (by norm_num) hb53
    have e : n * unit = b * 2 ^ 1074 * 100 := by rw [hb, unit_eq]; ring
    rw [e, this]
    exact Dvd.intro_left b rfl

/-- An amount of `n` cents rounds to a multiple of 0.25 exactly when `n` is a multiple of
25 cents. -/
theorem cents_dvd_quarter (n : Nat) (hn : n < 10 ^ 15) :
    2 ^ 1072 ∣ roundUnits (n * unit) 100 ↔ n % 25 = 0 := by
  constructor
  · rintro ⟨c, hc⟩
    obtain ⟨h1, h2⟩ := cents_bounds n hn
    rw [hc] at h1 h2
    clear hc
    have hv : 0 < 2 ^ 1020 := Nat.two_pow_pos 1020
    rw [unit_v, pow1065_v] at h1 h2
    rw [pow_v 52 4503599627370496 (by norm_num)] at h1 h2
    generalize 2 ^ 1020 = v at hv h1 h2
    have e1 : 2 * (4503599627370496 * v * c * 100) = 2 * 18014398509481984 * ((25 * c) * v) := by ring
    have e2 : 2 * (n * (18014398509481984 * v)) = 2 * 18014398509481984 * (n * v) := by ring
    rw [e1, e2] at h1 h2
    have := grid_unique_mul (25 * c) n v hv h1 h2
    omega
  · intro h
    obtain ⟨b, hb⟩ : 25 ∣ n := Nat.dvd_of_mod_eq_zero h
    have hb53 : b < 2 ^ 53 := lt_of_le_of_lt (by omega : b ≤ 10 ^ 15) (by norm_num)
    have := roundUnits_exact 100 b 1072 (by norm_num) hb53
    have e : n * unit = b * 2 ^ 1072 * 100 := by rw [hb, unit_eq_quarter]; ring
    rw [e, this]
    exact Dvd.intro_left b rfl

/-- Linear core of the item rule: from the two rounding errors, the product of an amount
that is not a multiple of 5.00 with the float 0.2 stays strictly between the two integers
around the exact product. -/
theorem item_lin (P R y kv v : Nat) (hv : 0 < v)
    (a1 : 200 * R ≤ 2 * 18014398509481984 * y + 100 * (35184372088832 * v))
    (a2 : 2 * 18014398509481984 * y ≤ 200 * R + 100 * (35184372088832 * v))
    (b1 : 2 * 18014398509481984 * P
      ≤ 2 * 3602879701896397 * R + 18014398509481984 * (8796093022208 * v))
    (b2 : 2 * 3602879701896397 * R
      ≤ 2 * 18014398509481984 * P + 18014398509481984 * (8796093022208 * v))
    (hk1 : y + v ≤ 500 * kv) (hk2 : 500 * kv ≤ y + 499 * v)
    (hk3 : kv ≤ 2000000000001 * v) :
    P ≤ 18014398509481984 * kv ∧ 18014398509481984 * kv < P + 18014398509481984 * v := by
  constructor <;> omega

theorem pow1063_v : 2 ^ 1063 = 8796093022208 * 2 ^ 1020 := pow_v 43 _ (by norm_num)

theorem pow1116_v : 2 ^ (53 + 1063) = 79228162514264337593543950336 * 2 ^ 1020 :=
  pow_v 96 _ (by norm_num)

/-- The item rule on an amount of `n` cents that is a multiple of 5.00: the float product
with 0.2 is the exact fifth. -/
theorem item_round_exact (k : Nat) (hk : k < 2 * 10 ^ 12) :
    roundUnits (roundUnits (500 * k * unit) 100 * (3602879701896397 * 2 ^ 1020)) unit
      = k * unit := by
  have h5k : 5 * k < 2 ^ 53 := lt_of_lt_of_le (by omega : 5 * k < 10 ^ 13) (by norm_num)
  have hk53 : k < 2 ^ 53 := by omega
  have hR : roundUnits (500 * k * unit) 100 = 5 * k * 2 ^ 1074 := by
    have := roundUnits_exact 100 (5 * k) 1074 (by norm_num) h5k
    have e : 500 * k * unit = 5 * k * 2 ^ 1074 * 100 := by rw [unit_eq]; ring
    rw [e, this]
  rw [hR]
  rcases Nat.eq_zero_or_pos k with h0 | h0
  · subst h0
    have := roundUnits_exact unit 0 0 unit_pos (by norm_num)
    simpa using this
  · rw [unit_eq]
    apply roundUnits_rel _ _ k 1074 (Nat.two_pow_pos 1074) h0 hk53
    · rw [pow_v 54 18014398509481984 (by norm_num)]
      generalize 2 ^ 1020 = v
      have e1 : 5 * k * (18014398509481984 * v) * (3602879701896397 * v)
          = k * (18014398509481984 * v) * (18014398509481984 * v)
            + k * (18014398509481984 * v) * v := by ring
      rw [e1]
      exact Nat.le_add_right _ _
    · rw [pow_v 54 18014398509481984 (by norm_num)]
      generalize 2 ^ 1020 = v
      have e1 : 5 * k * (18014398509481984 * v) * (3602879701896397 * v)
          = k * (18014398509481984 * v) * (18014398509481984 * v)
            + k * (18014398509481984 * v) * v := by ring
      rw [e1, Nat.add_sub_cancel_left]
      have e2 : (2 : Nat) ^ 54 = 18014398509481984 := by norm_num
      rw [e2]
      exact le_of_eq (by ring)

/-- The item rule on an amount of `n` cents that is not a multiple of 5.00: the float
product with 0.2 lies strictly between the integers around `n / 500`. -/
theorem item_round_between (n : Nat) (hn : n < 10 ^ 15) (hmod : n % 500 ≠ 0) :
    roundUnits (roundUnits (n * unit) 100 * (3602879701896397 * 2 ^ 1020)) unit
        ≤ (n / 500 + 1) * unit
      ∧ (n / 500 + 1) * unit
        < roundUnits (roundUnits (n * unit) 100 * (3602879701896397 * 2 ^ 1020)) unit + unit := by
  obtain ⟨a1, a2⟩ := cents_bounds n hn
  set R := roundUnits (n * unit) 100 with hR
  have hv : 0 < 2 ^ 1020 := Nat.two_pow_pos 1020
  have hy : n * 2 ^ 1020 < 10 ^ 15 * 2 ^ 1020 := Nat.mul_lt_mul_of_pos_right hn hv
  have hk1 : (n + 1) * 2 ^ 1020 ≤ 500 * (n / 500 + 1) * 2 ^ 1020 :=
    Nat.mul_le_mul_right _ (by omega)
  have hk2 : 500 * (n / 500 + 1) * 2 ^ 1020 ≤ (n + 499) * 2 ^ 1020 :=
    Nat.mul_le_mul_right _ (by omega)
  have hk3 : (n / 500 + 1) * 2 ^ 1020 ≤ 2000000000001 * 2 ^ 1020 :=
    Nat.mul_le_mul_right _ (by omega)
  have hB : R * (3602879701896397 * 2 ^ 1020) < unit * 2 ^ (53 + 1063) := by
    rw [unit_v, pow1116_v]
    rw [unit_v, pow1065_v] at a1
    generalize 2 ^ 1020 = v at hv hy a1 ⊢
    have e2 : 2 * (n * (18014398509481984 * v)) = 2 * 18014398509481984 * (n * v) := by ring
    rw [e2] at a1
    have h : R * 3602879701896397
        < 18014398509481984 * 79228162514264337593543950336 * v := by
      generalize n * v = y at hy a1
      omega
    calc R * (3602879701896397 * v) = (R * 3602879701896397) * v := by ring
      _ < (18014398509481984 * 79228162514264337593543950336 * v) * v :=
          Nat.mul_lt_mul_of_pos_right h hv
      _ = 18014398509481984 * v * (79228162514264337593543950336 * v) := by ring
  obtain ⟨b1, b2⟩ := roundUnits_bounds _ unit 1063 unit_pos hB
  set P := roundUnits (R * (3602879701896397 * 2 ^ 1020)) unit with hP
  rw [unit_v, pow1063_v] at b1 b2
  rw [unit_v, pow1065_v] at a1 a2
  rw [unit_v]
  clear_value P R
  clear hB
  generalize 2 ^ 1020 = v at *
  have e1 : 2 * (R * 100) = 200 * R := by ring
  have e2 : 2 * (n * (18014398509481984 * v)) = 2 * 18014398509481984 * (n * v) := by ring
  rw [e1, e2] at a1 a2
  have b1' : 2 * 18014398509481984 * P
      ≤ 2 * 3602879701896397 * R + 18014398509481984 * (8796093022208 * v) := by
    apply Nat.le_of_mul_le_mul_right _ hv
    calc 2 * 18014398509481984 * P * v = 2 * (P * (18014398509481984 * v)) := by ring
      _ ≤ 2 * (R * (3602879701896397 * v))
            + 18014398509481984 * v * (8796093022208 * v) := b1
      _ = (2 * 3602879701896397 * R + 18014398509481984 * (8796093022208 * v)) * v := by ring
  have b2' : 2 * 3602879701896397 * R
      ≤ 2 * 18014398509481984 * P + 18014398509481984 * (8796093022208 * v) := by
    apply Nat.le_of_mul_le_mul_right _ hv
    calc 2 * 3602879701896397 * R * v = 2 * (R * (3602879701896397 * v)) := by ring
      _ ≤ 2 * (P * (18014398509481984 * v))
            + 18014398509481984 * v * (8796093022208 * v) := b2
      _ = (2 * 18014398509481984 * P + 18014398509481984 * (8796093022208 * v)) * v := by ring
  have hk1' : n * v + v ≤ 500 * ((n / 500 + 1) * v) := by
    calc n * v + v = (n + 1) * v := by ring
      _ ≤ 500 * (n / 500 + 1) * v := hk1
      _ = 500 * ((n / 500 + 1) * v) := by ring
  have hk2' : 500 * ((n / 500 + 1) * v) ≤ n * v + 499 * v := by
    calc 500 * ((n / 500 + 1) * v) = 500 * (n / 500 + 1) * v := by ring
      _ ≤ (n + 499) * v := hk2
      _ = n * v + 499 * v := by ring
  have key := item_lin P R (n * v) ((n / 500 + 1) * v) v hv a1 a2 b1' b2' hk1' hk2' hk3
  have e3 : (n / 500 + 1) * (18014398509481984 * v)
      = 18014398509481984 * ((n / 500 + 1) * v) := by ring
  rw [e3]
  exact key

theorem overflowThreshold_eq : overflowThreshold = 2 ^ 2098 := by
  unfold overflowThreshold; rw [Nat.shiftLeft_eq, one_mul]

theorem lt_overflow (x c : Nat) (h : x ≤ c * unit) (hc : c < 2 ^ 1024) :
    ¬ overflowThreshold ≤ x := by
  rw [overflowThreshold_eq, show (2098 : Nat) = 1024 + 1074 from rfl, pow_add, ← unit_eq]
  intro h2
  have h3 : c * unit < 2 ^ 1024 * unit := Nat.mul_lt_mul_of_pos_right hc unit_pos
  omega

theorem cents_le (n : Nat) (hn : n < 10 ^ 15) :
    roundUnits (n * unit) 100 ≤ 2 * 10 ^ 13 * unit := by
  obtain ⟨a1, _⟩ := cents_bounds n hn
  have hv : 0 < 2 ^ 1020 := Nat.two_pow_pos 1020
  have hy : n * 2 ^ 1020 < 10 ^ 15 * 2 ^ 1020 := Nat.mul_lt_mul_of_pos_right hn hv
  generalize roundUnits (n * unit) 100 = R at a1 ⊢
  rw [unit_v, pow1065_v] at a1
  rw [unit_v]
  generalize 2 ^ 1020 = v at *
  have e2 : 2 * (n * (18014398509481984 * v)) = 2 * 18014398509481984 * (n * v) := by ring
  rw [e2] at a1
  generalize n * v = y at hy a1
  omega

/-- The float64 of an amount of `n` cents below `10^13` is finite. -/
theorem cents_f64 (n : Nat) (hn : n < 10 ^ 15) :
    roundToF64 false n 100 = (F64.fin ((roundUnits (n * unit) 100 : Nat) : Int), false) := by
  unfold roundToF64
  have h := lt_overflow _ (2 * 10 ^ 13) (cents_le n hn)
    (lt_of_lt_of_le (by norm_num : 2 * 10 ^ 13 < 2 ^ 64) (Nat.pow_le_pow_right (by norm_num)
      (by norm_num)))
  simp only [h, if_false, Bool.false_eq_true]

theorem mod_isZero_iff (R G : Nat) (hG : 0 < G) :
    (F64.mod (F64.fin (R : Int)) (F64.fin (G : Int))).isZero = true ↔ G ∣ R := by
  have hG' : (G : Int) ≠ 0 := by exact_mod_cast hG.ne'
  simp only [F64.mod, hG', if_false, F64.isZero, decide_eq_true_eq]
  constructor
  · intro h
    exact_mod_cast Int.dvd_of_tmod_eq_zero h
  · intro h
    exact Int.tmod_eq_zero_of_dvd (by exact_mod_cast h)

/-- Ceiling and conversion to `int` of a non-negative float that lies in `(k - 1, k]`. -/
theorem ceil_toInt (conv : F64 → Int) (P k : Nat) (h1 : P ≤ k * unit)
    (h2 : k * unit < P + unit) (hk : k < 2 ^ 63) :
    F64.toInt conv (F64.ceil (F64.fin (P : Int))) = (k : Int) := by
  have hU : (0 : Int) < (unit : Int) := by exact_mod_cast unit_pos
  have hdiv : (-(P : Int)) / (unit : Int) = -(k : Int) := by
    have := (Int.ediv_emod_unique (a := -(P : Int)) (r := (k : Int) * unit - P)
      (q := -(k : Int)) hU).2
    apply (this ⟨by ring, ?_, ?_⟩).1
    · have : (P : Int) ≤ (k : Int) * unit := by exact_mod_cast h1
      omega
    · have : (k : Int) * unit < (P : Int) + unit := by exact_mod_cast h2
      omega
  have hk' : (k : Int) < 9223372036854775808 := by
    have : (2 : Nat) ^ 63 = 9223372036854775808 := by norm_num
    rw [this] at hk
    exact_mod_cast hk
  have hk0 : (0 : Int) ≤ (k : Int) := Int.natCast_nonneg k
  simp only [F64.ceil, F64.toInt, hdiv, neg_neg, Int.mul_tdiv_cancel _ hU.ne']
  rw [if_pos ⟨by omega, hk'⟩]

theorem mul_const02_fin (R : Nat)
    (h : ¬ overflowThreshold ≤ roundUnits (R * (3602879701896397 * 2 ^ 1020)) unit) :
    F64.mul (F64.fin (R : Int)) const02
      = F64.fin ((roundUnits (R * (3602879701896397 * 2 ^ 1020)) unit : Nat) : Int) := by
  rw [const02_v]
  have h1 : ¬ ((R : Int) < 0) := by omega
  have h2 : ¬ (((3602879701896397 * 2 ^ 1020 : Nat) : Int) < 0) := by omega
  simp only [F64.mul, h1, h2, decide_False, Bool.xor_false, Int.natAbs_ofNat, h, if_false,
    Bool.false_eq_true]

/-- The item rule in float64 on an amount of `n` cents below `10^13`: the exact ceiling of
one fifth of the amount. -/
theorem item_cents (conv : F64 → Int) (n : Nat) (hn : n < 10 ^ 15) :
    F64.toInt conv (F64.ceil (F64.mul (F64.fin ((roundUnits (n * unit) 100 : Nat) : Int))
      const02)) = (((n + 499) / 500 : Nat) : Int) := by
  have hkb : (n + 499) / 500 < 2 ^ 63 :=
    lt_of_le_of_lt (by omega : (n + 499) / 500 ≤ 10 ^ 13) (by norm_num)
  have hkc : (n + 499) / 500 < 2 ^ 1024 :=
    lt_of_lt_of_le hkb (Nat.pow_le_pow_right (by norm_num) (by norm_num))
  by_cases hmod : n % 500 = 0
  · obtain ⟨k, hk⟩ : 500 ∣ n := Nat.dvd_of_mod_eq_zero hmod
    have hk2 : k < 2 * 10 ^ 12 := by omega
    have hP := item_round_exact k hk2
    have hkk : (n + 499) / 500 = k := by omega
    rw [hkk] at hkb hkc ⊢
    rw [hk]
    have hno := lt_overflow _ k (le_of_eq hP) hkc
    rw [mul_const02_fin _ hno, hP]
    exact ceil_toInt conv (k * unit) k le_rfl (Nat.lt_add_of_pos_right unit_pos) hkb
  · obtain ⟨b1, b2⟩ := item_round_between n hn hmod
    have hkk : (n + 499) / 500 = n / 500 + 1 := by omega
    rw [hkk] at hkb hkc ⊢
    have hno := lt_overflow _ (n / 500 + 1) b1 hkc
    rw [mul_const02_fin _ hno]
    exact ceil_toInt conv _ (n / 500 + 1) b1 b2 hkb

/-! ## Parsing amounts -/

theorem centsOf_some (s : List Char) (n : Nat) (h : centsOf s = some n) :
    ∃ whole d1 d2, s = whole ++ ['.', d1, d2] ∧ whole ≠ [] ∧ (∀ c ∈ whole, isDigit c = true)
      ∧ isDigit d1 = true ∧ isDigit d2 = true
      ∧ n = decimalValue whole * 100 + digitVal d1 * 10 + digitVal d2 := by
  unfold centsOf at h
  simp only [] at h
  have hsplit := List.takeWhile_append_dropWhile (fun c => decide (c ≠ '.')) s
  generalize hdrop : s.dropWhile (fun c => decide (c ≠ '.')) = tl at h hsplit
  rcases tl with _ | ⟨d0, _ | ⟨d1, _ | ⟨d2, _ | ⟨d3, t⟩⟩⟩⟩
  · simp at h
  · simp at h
  · simp at h
  · simp only [] at h
    split_ifs at h with hc
    obtain ⟨h1, h2, h3, h4⟩ := hc
    have hd0 : d0 = '.' := by
      have := List.head_dropWhile_not (fun c => decide (c ≠ '.')) s
        (by rw [hdrop]; exact List.cons_ne_nil _ _)
      simp only [hdrop, List.head_cons] at this
      simpa using this
    subst hd0
    refine ⟨_, d1, d2, hsplit.symm, h1, h2, h3, h4, ?_⟩
    simpa using h.symm
  · simp at h

theorem isDigit_range (c : Char) (h : isDigit c = true) : 48 ≤ c.toNat ∧ c.toNat ≤ 57 := by
  simpa [isDigit] using h

theorem isDigit_ne (c d : Char) (h : isDigit c = true) (hd : isDigit d = false) : c ≠ d := by
  intro e; subst e; rw [h] at hd; cases hd

theorem lower_ne_of_digit (c : Char) (h : isDigit c = true) : lower c ≠ 120 ∧ lower c ≠ 101 := by
  obtain ⟨h1, h2⟩ := isDigit_range c h
  unfold lower
  interval_cases c.toNat <;> decide

theorem mantDigit_digit (c : Char) (h : isDigit c = true) :
    mantDigit 10 c = some (digitVal c) := by
  simp [mantDigit, h]

theorem scanMantissa_digits (ds rest : List Char) (st : Mantissa)
    (h : ∀ c ∈ ds, isDigit c = true) :
    scanMantissa 10 (ds ++ rest) st =
      scanMantissa 10 rest
        { st with sawdigits := st.sawdigits || !ds.isEmpty,
                  mant := ds.foldl (fun a c => a * 10 + digitVal c) st.mant,
                  frac := if st.sawdot then st.frac + ds.length else st.frac } := by
  induction ds generalizing st with
  | nil => cases st; simp
  | cons c cs ih =>
    have hc : isDigit c = true := h c (List.mem_cons_self _ _)
    have h1 : c ≠ '_' := isDigit_ne c '_' hc (by decide)
    have h2 : c ≠ '.' := isDigit_ne c '.' hc (by decide)
    rw [List.cons_append, scanMantissa]
    simp only [h1, h2, if_false, mantDigit_digit c hc]
    rw [ih _ (fun d hd => h d (List.mem_cons_of_mem _ hd))]
    congr 1
    cases st with
    | mk m f sd sg us =>
      cases sd <;> simp [Nat.add_assoc, Nat.add_comm 1]

theorem scanMantissa_cents (whole : List Char) (d1 d2 : Char) (hw : whole ≠ [])
    (hwd : ∀ c ∈ whole, isDigit c = true) (h1 : isDigit d1 = true) (h2 : isDigit d2 = true) :
    scanMantissa 10 (whole ++ ['.', d1, d2]) ⟨0, 0, false, false, false⟩
      = (⟨decimalValue whole * 100 + digitVal d1 * 10 + digitVal d2, 2, true, true, false⟩,
          []) := by
  rw [scanMantissa_digits whole _ _ hwd]
  have hne : whole.isEmpty = false := by
    cases whole with
    | nil => exact absurd rfl hw
    | cons _ _ => rfl
  have e1 : d1 ≠ '_' := isDigit_ne d1 '_' h1 (by decide)
  have e2 : d1 ≠ '.' := isDigit_ne d1 '.' h1 (by decide)
  have e3 : d2 ≠ '_' := isDigit_ne d2 '_' h2 (by decide)
  have e4 : d2 ≠ '.' := isDigit_ne d2 '.' h2 (by decide)
  have e5 : ('.' : Char) ≠ '_' := by decide
  simp only [scanMantissa, e1, e2, e3, e4, e5, if_false, if_true, mantDigit_digit d1 h1,
    mantDigit_digit d2 h2, hne, Bool.false_eq_true, Bool.not_false, Bool.or_true,
    Bool.false_or]
  simp only [decimalValue, Prod.mk.injEq, Mantissa.mk.injEq, and_true, true_and]
  ring

theorem special_digit (c : Char) (t : List Char) (h : isDigit c = true) :
    special (c :: t) = none := by
  obtain ⟨h1, h2⟩ := isDigit_range c h
  have e1 : c ≠ '+' := isDigit_ne c '+' h (by decide)
  have e2 : c ≠ '-' := isDigit_ne c '-' h (by decide)
  have e3 : foldCase c = c.toNat := by
    unfold foldCase
    rw [if_neg (by omega)]
  have e4 : c.toNat ≠ 105 := by omega
  have e5 : c.toNat ≠ 110 := by omega
  simp [special, e1, e2, e3, e4, e5]

theorem readFloat_cents (whole : List Char) (d1 d2 : Char) (hw : whole ≠ [])
    (hwd : ∀ c ∈ whole, isDigit c = true) (h1 : isDigit d1 = true) (h2 : isDigit d2 = true) :
    readFloat (whole ++ ['.', d1, d2])
      = some ⟨false, false, decimalValue whole * 100 + digitVal d1 * 10 + digitVal d2, 2,
          false, 0⟩ := by
  have hscan := scanMantissa_cents whole d1 d2 hw hwd h1 h2
  obtain ⟨c0, w1, rfl⟩ := List.exists_cons_of_ne_nil hw
  have hc0 : isDigit c0 = true := hwd c0 (List.mem_cons_self _ _)
  have e1 : c0 ≠ '+' := isDigit_ne c0 '+' hc0 (by decide)
  have e2 : c0 ≠ '-' := isDigit_ne c0 '-' hc0 (by decide)
  have hhex : ∀ (c1 c2 : Char) (t : List Char), w1 ++ ['.', d1, d2] = c1 :: c2 :: t →
      lower c1 ≠ 120 := by
    intro c1 c2 t ht
    cases w1 with
    | nil =>
      simp only [List.nil_append, List.cons.injEq] at ht
      rw [← ht.1]; decide
    | cons x xs =>
      simp only [List.cons_append, List.cons.injEq] at ht
      rw [← ht.1]
      exact (lower_ne_of_digit x (hwd x (by simp))).1
  obtain ⟨c1, c2, t, ht⟩ : ∃ c1 c2 t, w1 ++ ['.', d1, d2] = c1 :: c2 :: t := by
    cases w1 with
    | nil => exact ⟨_, _, _, rfl⟩
    | cons x xs =>
      cases xs with
      | nil => exact ⟨_, _, _, rfl⟩
      | cons y ys => exact ⟨_, _, _, rfl⟩
  have hl := hhex c1 c2 t ht
  rw [List.cons_append] at hscan ⊢
  rw [ht] at hscan ⊢
  simp only [readFloat, e1, e2, hl, decide_False, Bool.and_false, Bool.false_eq_true, if_false,
    or_self, hscan]
  simp

/-- Parsing a non-negative decimal string with two fractional digits: the float64 nearest
to the amount. -/
theorem parseFloat_cents (s : List Char) (n : Nat) (h : centsOf s = some n) :
    parseFloat s = roundToF64 false n 100 := by
  obtain ⟨whole, d1, d2, rfl, hw, hwd, h1, h2, rfl⟩ := centsOf_some s n h
  obtain ⟨c0, w1, hc⟩ := List.exists_cons_of_ne_nil hw
  have hsp : special (whole ++ ['.', d1, d2]) = none := by
    rw [hc, List.cons_append]
    exact special_digit c0 _ (hwd c0 (by rw [hc]; exact List.mem_cons_self _ _))
  unfold parseFloat
  rw [hsp, readFloat_cents whole d1 d2 hw hwd h1 h2]
  simp [FloatLit.value]

/-! ## Specification in rational and in integer arithmetic -/

theorem fract_div_eq_zero_iff (n p : Nat) (hp : 0 < p) :
    Int.fract ((n : ℚ) / (p : ℚ)) = 0 ↔ n % p = 0 := by
  have hp' : (p : ℚ) ≠ 0 := by exact_mod_cast hp.ne'
  rw [Int.fract_eq_iff]
  constructor
  · rintro ⟨-, -, z, hz⟩
    rw [sub_zero, div_eq_iff hp'] at hz
    have hz' : (n : Int) = z * p := by exact_mod_cast hz
    have hdvd : (p : Int) ∣ (n : Int) := Dvd.intro_left z hz'.symm
    exact Nat.mod_eq_zero_of_dvd (by exact_mod_cast hdvd)
  · intro h
    obtain ⟨b, hb⟩ := Nat.dvd_of_mod_eq_zero h
    refine ⟨le_refl _, by norm_num, (b : Int), ?_⟩
    rw [sub_zero, div_eq_iff hp', hb]
    push_cast
    ring

theorem fract_dollars (n : Nat) : Int.fract (dollars n) = 0 ↔ n % 100 = 0 := by
  have := fract_div_eq_zero_iff n 100 (by norm_num)
  simpa [dollars] using this

theorem fract_quarters (n : Nat) : Int.fract (dollars n / (25 / 100)) = 0 ↔ n % 25 = 0 := by
  have := fract_div_eq_zero_iff n 25 (by norm_num)
  have e : dollars n / (25 / 100) = (n : ℚ) / ((25 : Nat) : ℚ) := by
    unfold dollars; push_cast; ring
  rw [e]; exact this

theorem ceil_fifth (n : Nat) : ⌈dollars n * (2 / 10)⌉ = (((n + 499) / 500 : Nat) : Int) := by
  have h1 : n ≤ 500 * ((n + 499) / 500) := by omega
  have h2 : 500 * ((n + 499) / 500) < n + 500 := by omega
  generalize (n + 499) / 500 = k at h1 h2
  rw [Int.ceil_eq_iff]
  have h1' : (n : ℚ) ≤ 500 * (k : ℚ) := by exact_mod_cast h1
  have h2' : 500 * (k : ℚ) < (n : ℚ) + 500 := by exact_mod_cast h2
  unfold dollars
  simp only [Int.cast_natCast]
  constructor <;> linarith

theorem specItemPoints_eq (item : Item) : specItemPoints item = specItemCents item := by
  unfold specItemPoints specItemCents amountOf
  rw [ceil_fifth]

theorem specPoints_eq_cents (r : Receipt) : specPoints r = specPointsCents r := by
  unfold specPoints specPointsCents amountOf
  have e : r.Items.toList.map specItemPoints = r.Items.toList.map specItemCents :=
    List.map_congr_left (fun it _ => specItemPoints_eq it)
  rw [e]
  simp only [fract_dollars, fract_quarters]

/-! ## Dates, times and descriptions -/

theorem isLeap_eq (y : Nat) : isLeap y = leapYear y := by
  unfold isLeap leapYear
  rw [Bool.eq_iff_iff]
  simp only [Bool.and_eq_true, Bool.or_eq_true, decide_eq_true_eq]
  omega

theorem daysIn_eq (m y : Nat) (h1 : 1 ≤ m) (h2 : m ≤ 12) : daysIn m y = monthLength y m := by
  unfold daysIn monthLength
  rw [isLeap_eq]
  interval_cases m <;> simp

theorem decimalValue_two (a b : Char) : decimalValue [a, b] = digitVal a * 10 + digitVal b := by
  simp [decimalValue]

theorem decimalValue_four (a b c d : Char) :
    decimalValue [a, b, c, d]
      = ((digitVal a * 10 + digitVal b) * 10 + digitVal c) * 10 + digitVal d := by
  simp [decimalValue]

/-- A valid calendar date is accepted by `time.Parse`, with the same day of month. -/
theorem parseDate_of_dayOfDate (s : List Char) (d : Nat) (h : dayOfDate s = some d) :
    (orZero (parseDate s)).day = d := by
  unfold dayOfDate at h
  split at h
  · rename_i y0 y1 y2 y3 s1 m0 m1 s2 d0 d1
    simp only [] at h
    split_ifs at h with hc
    obtain ⟨rfl, rfl, hdig, hm1, hm2, hd1, hd2⟩ := hc
    simp only [List.mem_cons, List.mem_singleton, forall_eq_or_imp, forall_eq,
      List.not_mem_nil, false_implies, implies_true, and_true] at hdig
    obtain ⟨a0, a1, a2, a3, a4, a5, a6, a7⟩ := hdig
    rw [decimalValue_two] at hm1 hm2 hd1 hd2 h
    rw [decimalValue_four, decimalValue_two] at hd2
    rw [← daysIn_eq _ _ hm1 hm2] at hd2
    have hmA : ¬ (digitVal m0 = 0 ∧ digitVal m1 = 0) := by omega
    have hmB : ¬ (12 < digitVal m0 * 10 + digitVal m1) := by omega
    have hdA : ¬ (digitVal d0 = 0 ∧ digitVal d1 = 0) := by omega
    have hdB : ¬ (daysIn (digitVal m0 * 10 + digitVal m1)
            (((digitVal y0 * 10 + digitVal y1) * 10 + digitVal y2) * 10 + digitVal y3)
          < digitVal d0 * 10 + digitVal d1) := by
      omega
    simp only [Option.some.injEq] at h
    subst h
    simp [parseDate, getnum, a0, a1, a2, a3, a4, a5, a6, a7, hmA, hmB, hdA, hdB, orZero]
  · cases h

/-- A valid 24-hour time is accepted by `time.Parse`, with the same hour. -/
theorem parseClock_of_hourOfTime (s : List Char) (hr : Nat) (h : hourOfTime s = some hr) :
    (orZero (parseClock s)).hour = hr := by
  unfold hourOfTime at h
  split at h
  · rename_i h0 h1 s1 m0 m1
    simp only [] at h
    split_ifs at h with hc
    obtain ⟨rfl, hdig, hh, hm⟩ := hc
    simp only [List.mem_cons, List.mem_singleton, forall_eq_or_imp, forall_eq,
      List.not_mem_nil, false_implies, implies_true, and_true] at hdig
    obtain ⟨a0, a1, a2, a3⟩ := hdig
    rw [decimalValue_two] at hh hm h
    have hh' : ¬ (24 ≤ digitVal h0 * 10 + digitVal h1) := by omega
    have hm' : ¬ (60 ≤ digitVal m0 * 10 + digitVal m1) := by omega
    simp only [Option.some.injEq] at h
    subst h
    simp [parseClock, getnum, a0, a1, a2, a3, hh', hm', orZero]
  · cases h

theorem dropWhile_congr_mem {α : Type} (p q : α → Bool) (l : List α)
    (h : ∀ a ∈ l, p a = q a) : l.dropWhile p = l.dropWhile q := by
  induction l with
  | nil => rfl
  | cons a t ih =>
    simp only [List.dropWhile_cons, h a (List.mem_cons_self _ _)]
    rw [ih (fun b hb => h b (List.mem_cons_of_mem _ hb))]

theorem isSpace_ascii (c : Char) (h : c.toNat < 128) : isSpace c = isAsciiSpace c := by
  unfold isSpace isAsciiSpace
  rw [Bool.eq_iff_iff]
  have e : (c == ' ') = true ↔ c.toNat = 32 := by
    rw [beq_iff_eq]
    constructor
    · rintro rfl; rfl
    · intro h2
      apply Char.ext
      apply UInt32.ext
      exact h2
  simp only [Bool.or_eq_true, Bool.and_eq_true, decide_eq_true_eq, e, beq_iff_eq]
  omega

theorem byteLen_ascii (s : List Char) (h : ∀ c ∈ s, c.toNat < 128) : byteLen s = s.length := by
  induction s with
  | nil => rfl
  | cons c t ih =>
    have hc : c.toNat < 128 := h c (List.mem_cons_self _ _)
    have h1 : c.utf8Size = 1 := by
      unfold Char.utf8Size
      have hle : c.val ≤ 127 := by
        show c.val.toNat ≤ 127
        have : c.val.toNat = c.toNat := rfl
        omega
      show (if c.val ≤ 127 then 1 else
        if c.val ≤ 2047 then 2 else if c.val ≤ 65535 then 3 else 4) = 1
      rw [if_pos hle]
    have := ih (fun d hd => h d (List.mem_cons_of_mem _ hd))
    simp only [byteLen, List.map_cons, List.sum_cons, List.length_cons] at this ⊢
    omega

/-- On ASCII text, `len(strings.TrimSpace(s))` is the trimmed length. -/
theorem byteLen_trimSpace_ascii (s : List Char) (h : ∀ c ∈ s, c.toNat < 128) :
    byteLen (trimSpace s) = trimmedLength s := by
  have h1 : s.dropWhile isSpace = s.dropWhile isAsciiSpace :=
    dropWhile_congr_mem _ _ _ (fun c hc => isSpace_ascii c (h c hc))
  have hmem : ∀ c ∈ s.dropWhile isAsciiSpace, c.toNat < 128 :=
    fun c hc => h c ((List.dropWhile_sublist _).subset hc)
  have h2 : (s.dropWhile isAsciiSpace).reverse.dropWhile isSpace
      = (s.dropWhile isAsciiSpace).reverse.dropWhile isAsciiSpace :=
    dropWhile_congr_mem _ _ _ (fun c hc => isSpace_ascii c (hmem c (List.mem_reverse.1 hc)))
  have h3 : trimSpace s = (s.dropWhile isAsciiSpace).rdropWhile isAsciiSpace := by
    unfold trimSpace List.rdropWhile
    rw [h1, h2]
  rw [h3]
  unfold trimmedLength
  apply byteLen_ascii
  intro c hc
  exact hmem c ((List.rdropWhile_prefix _ _).subset hc)

/-! ## The score of a valid receipt -/

theorem parsePrice_cents (s : String) (n : Nat) (h : centsOf s.data = some n)
    (hn : n < 10 ^ 15) :
    (parsePrice s).1 = F64.fin ((roundUnits (n * unit) 100 : Nat) : Int) := by
  unfold parsePrice
  rw [parseFloat_cents _ n h, cents_f64 n hn]

theorem isRoundDollar_cents (total : String) (n : Nat) (h : centsOf total.data = some n)
    (hn : n < 10 ^ 15) : isRoundDollar total = decide (n % 100 = 0) := by
  unfold isRoundDollar
  simp only []
  rw [parsePrice_cents total n h hn, const1_eq, Bool.eq_iff_iff, mod_isZero_iff _ _ unit_pos,
    decide_eq_true_eq]
  have := cents_dvd_one n hn
  rw [← unit_eq] at this
  exact this

theorem isMultipleOf_cents (total : String) (n : Nat) (h : centsOf total.data = some n)
    (hn : n < 10 ^ 15) : isMultipleOf total const025 = decide (n % 25 = 0) := by
  unfold isMultipleOf
  simp only []
  have hq : 0 < unit / 4 := by rw [unit_div_four]; exact Nat.two_pow_pos 1072
  rw [parsePrice_cents total n h hn, const025_eq, Bool.eq_iff_iff, mod_isZero_iff _ _ hq,
    decide_eq_true_eq]
  have := cents_dvd_quarter n hn
  rw [← unit_div_four] at this
  exact this

theorem itemPoints_cents (conv : F64 → Int) (item : Item) (n : Nat)
    (h : centsOf item.Price.data = some n) (hn : n < 10 ^ 15)
    (hascii : ∀ c ∈ item.ShortDescription.data, c.toNat < 128) :
    itemPoints conv item = specItemCents item := by
  unfold itemPoints specItemCents
  rw [byteLen_trimSpace_ascii _ hascii, parsePrice_cents _ n h hn, item_cents conv n hn, h]
  rfl

theorem specItemCents_nonneg (item : Item) : 0 ≤ specItemCents item := by
  unfold specItemCents
  split_ifs
  · exact Int.natCast_nonneg _
  · exact le_refl _

theorem specPointsCents_nonneg (r : Receipt) : 0 ≤ specPointsCents r := by
  unfold specPointsCents
  have h1 : 0 ≤ (r.Items.toList.map specItemCents).sum :=
    List.sum_nonneg (by
      intro x hx
      obtain ⟨it, _, rfl⟩ := List.mem_map.1 hx
      exact specItemCents_nonneg it)
  have h2 : (0 : Int) ≤ ((r.Retailer.data.countP (fun c => decide (IsAsciiAlnum c)) : Nat) : Int) :=
    Int.natCast_nonneg _
  have h3 : (0 : Int) ≤ 5 * ((r.Items.toList.length / 2 : Nat) : Int) := by
    have := Int.natCast_nonneg (r.Items.toList.length / 2)
    omega
  split_ifs <;> omega

/-- The score of a valid receipt with amounts below `10^13`, as the reduction to `int` of the
specified sum in integer arithmetic. -/
theorem calculatePoints_cents (conv : F64 → Int) (r : Receipt) (hv : ValidReceipt r)
    (hs : SmallAmounts r) : calculatePoints conv r = wrap64 (specPointsCents r) := by
  obtain ⟨hd, ht, htot, hitems⟩ := hv
  obtain ⟨hstot, hsitems⟩ := hs
  obtain ⟨d, hd'⟩ := Option.isSome_iff_exists.1 hd
  obtain ⟨hr, ht'⟩ := Option.isSome_iff_exists.1 ht
  obtain ⟨n, hn'⟩ := Option.isSome_iff_exists.1 htot
  have hnlt : n < 10 ^ 15 := by rw [hn'] at hstot; exact hstot
  have hmap : r.Items.toList.map (itemPoints conv) = r.Items.toList.map specItemCents := by
    apply List.map_congr_left
    intro it hit
    obtain ⟨hp, hascii⟩ := hitems it hit
    obtain ⟨m, hm⟩ := Option.isSome_iff_exists.1 hp
    have hmlt : m < 10 ^ 15 := by
      have := hsitems it hit
      rw [hm] at this; exact this
    exact itemPoints_cents conv it m hm hmlt hascii
  rw [calculatePoints_eq, hmap, countAlphanumeric_eq_countP, isRoundDollar_cents _ n hn' hnlt,
    isMultipleOf_cents _ n hn' hnlt, parseDate_of_dayOfDate _ d hd',
    parseClock_of_hourOfTime _ hr ht']
  unfold specPointsCents
  rw [hd', ht', hn']
  simp only [Option.getD_some, decide_eq_true_eq]
  have e1 : ((r.Items.toList.length : Int) / 2) * 5
      = 5 * ((r.Items.toList.length / 2 : Nat) : Int) := by omega
  have e2 : (d % 2 ≠ 0) ↔ (d % 2 = 1) := by omega
  rw [e1]
  simp only [e2]

/-! ## The scoring contract -/

/-- C1 (amended): for every receipt with a valid calendar date, a valid 24-hour time, a total
and item prices that are non-negative decimal strings with two fractional digits and below
`10^13`, and ASCII item descriptions, calculatePoints returns the sum of the seven rule
contributions reduced to the range of `int`, and exactly that sum when it is below
`2^63`. -/
theorem calculatePoints_spec (conv : F64 → Int) (r : Receipt) (hv : ValidReceipt r)
    (hs : SmallAmounts r) :
    calculatePoints conv r = wrap64 (specPoints r)
      ∧ (specPoints r < 9223372036854775808 → calculatePoints conv r = specPoints r) := by
  have h := calculatePoints_cents conv r hv hs
  rw [← specPoints_eq_cents] at h
  refine ⟨h, fun hlt => ?_⟩
  rw [h]
  apply wrap64_of_range _ _ hlt
  have := specPointsCents_nonneg r
  rw [← specPoints_eq_cents] at this
  omega

set_option maxRecDepth 100000 in
/-- Witness for C1: the three test receipts score 30, 28 and 109. -/
theorem calculatePoints_spec_witness :
    calculatePoints convAmd64 testReceipt = 30
      ∧ calculatePoints convAmd64 exampleReceipt1 = 28
      ∧ calculatePoints convAmd64 exampleReceipt2 = 109 :=
  ⟨((calculatePoints_spec convAmd64 testReceipt (by decide) (by decide)).2
      (by rw [specPoints_eq_cents]; decide)).trans (by rw [specPoints_eq_cents]; decide),
   ((calculatePoints_spec convAmd64 exampleReceipt1 (by decide) (by decide)).2
      (by rw [specPoints_eq_cents]; decide)).trans (by rw [specPoints_eq_cents]; decide),
   ((calculatePoints_spec convAmd64 exampleReceipt2 (by decide) (by decide)).2
      (by rw [specPoints_eq_cents]; decide)).trans (by rw [specPoints_eq_cents]; decide)⟩

set_option maxRecDepth 100000 in
/-- Counterexample to C1 as stated: the total `140737488355328.26` is a non-negative decimal
string with two fractional digits and not a multiple of 0.25, but its float64 is
`140737488355328.25`, so the code adds 25 points that the sum of the rules does not
contain. -/
theorem calculatePoints_spec_counterexample :
    ValidReceipt largeTotalReceipt
      ∧ calculatePoints convAmd64 largeTotalReceipt = 31
      ∧ specPoints largeTotalReceipt = 6 := by
  refine ⟨by decide, by decide, ?_⟩
  rw [specPoints_eq_cents]
  decide

/-! ## Non-negative scores -/

theorem ceil_toInt_bounds (conv : F64 → Int) (P B : Nat) (hP : P ≤ B * unit)
    (hB : B < 2 ^ 63) :
    0 ≤ F64.toInt conv (F64.ceil (F64.fin (P : Int)))
      ∧ F64.toInt conv (F64.ceil (F64.fin (P : Int))) ≤ (B : Int) := by
  have hU := unit_pos
  have h1 : P ≤ ((P + unit - 1) / unit) * unit := by
    have := Nat.div_add_mod (P + unit - 1) unit
    have := Nat.mod_lt (P + unit - 1) hU
    have e : unit * ((P + unit - 1) / unit) = (P + unit - 1) / unit * unit := Nat.mul_comm _ _
    omega
  have h2 : ((P + unit - 1) / unit) * unit < P + unit := by
    have := Nat.div_mul_le_self (P + unit - 1) unit
    omega
  have h3 : (P + unit - 1) / unit ≤ B := by
    have : P + unit - 1 < (B + 1) * unit := by
      rw [Nat.add_mul, one_mul]; omega
    have := Nat.div_lt_of_lt_mul (by rw [Nat.mul_comm]; exact this)
    omega
  rw [ceil_toInt conv P _ h1 h2 (lt_of_le_of_lt h3 hB)]
  exact ⟨Int.natCast_nonneg _, by exact_mod_cast h3⟩

theorem pow1126_v : 2 ^ (53 + 1073) = 81129638414606681695789005144064 * 2 ^ 1020 :=
  pow_v 106 _ (by norm_num)

theorem pow1073_v : 2 ^ 1073 = 9007199254740992 * 2 ^ 1020 := pow_v 53 _ (by norm_num)

/-- The product with 0.2 of a finite float between 0 and `2^53` is at most `2^51 + 1`. -/
theorem mul_const02_le (k : Nat) (hk : k ≤ 9007199254740992 * unit) :
    roundUnits (k * (3602879701896397 * 2 ^ 1020)) unit ≤ 2251799813685249 * unit := by
  have hB : k * (3602879701896397 * 2 ^ 1020) < unit * 2 ^ (53 + 1073) := by
    rw [unit_v, pow1126_v]
    rw [unit_v] at hk
    have hv : 0 < 2 ^ 1020 := Nat.two_pow_pos 1020
    generalize 2 ^ 1020 = v at hv hk ⊢
    have h : k * 3602879701896397
        < 18014398509481984 * 81129638414606681695789005144064 * v := by omega
    calc k * (3602879701896397 * v) = (k * 3602879701896397) * v := by ring
      _ < (18014398509481984 * 81129638414606681695789005144064 * v) * v :=
          Nat.mul_lt_mul_of_pos_right h hv
      _ = 18014398509481984 * v * (81129638414606681695789005144064 * v) := by ring
  obtain ⟨b1, _⟩ := roundUnits_bounds _ unit 1073 unit_pos hB
  generalize roundUnits (k * (3602879701896397 * 2 ^ 1020)) unit = P at b1 ⊢
  rw [unit_v, pow1073_v] at b1
  rw [unit_v] at hk ⊢
  have hv : 0 < 2 ^ 1020 := Nat.two_pow_pos 1020
  generalize 2 ^ 1020 = v at *
  have b1' : 2 * 18014398509481984 * P
      ≤ 2 * 3602879701896397 * k + 18014398509481984 * (9007199254740992 * v) := by
    apply Nat.le_of_mul_le_mul_right _ hv
    calc 2 * 18014398509481984 * P * v = 2 * (P * (18014398509481984 * v)) := by ring
      _ ≤ 2 * (k * (3602879701896397 * v))
            + 18014398509481984 * v * (9007199254740992 * v) := b1
      _ = (2 * 3602879701896397 * k + 18014398509481984 * (9007199254740992 * v)) * v := by
          ring
  omega

theorem itemPoints_range (conv : F64 → Int) (item : Item)
    (h : priceInRange item.Price = true) :
    0 ≤ itemPoints conv item ∧ itemPoints conv item ≤ 2251799813685249 := by
  unfold itemPoints
  split_ifs with hlen
  · unfold priceInRange at h
    cases hp : (parsePrice item.Price).1 with
    | nan => rw [hp] at h; cases h
    | inf b => rw [hp] at h; cases h
    | fin k =>
      rw [hp] at h
      simp only [Bool.and_eq_true, decide_eq_true_eq] at h
      obtain ⟨h0, hle⟩ := h
      obtain ⟨m, rfl⟩ := Int.eq_ofNat_of_zero_le h0
      have hle' : m ≤ 9007199254740992 * unit := by exact_mod_cast hle
      have hP := mul_const02_le m hle'
      have hno := lt_overflow _ 2251799813685249 hP
        (lt_of_lt_of_le (by norm_num : 2251799813685249 < 2 ^ 64)
          (Nat.pow_le_pow_right (by norm_num) (by norm_num)))
      rw [mul_const02_fin _ hno]
      have := ceil_toInt_bounds conv _ 2251799813685249 hP (by norm_num)
      exact_mod_cast this
  · exact ⟨le_refl _, by norm_num⟩

theorem sum_itemPoints_range (conv : F64 → Int) (items : List Item)
    (h : ∀ it ∈ items, priceInRange it.Price = true) :
    0 ≤ (items.map (itemPoints conv)).sum
      ∧ (items.map (itemPoints conv)).sum ≤ 2251799813685249 * (items.length : Int) := by
  induction items with
  | nil => simp
  | cons it rest ih =>
    obtain ⟨a, b⟩ := itemPoints_range conv it (h it (List.mem_cons_self _ _))
    obtain ⟨c, d⟩ := ih (fun x hx => h x (List.mem_cons_of_mem _ hx))
    simp only [List.map_cons, List.sum_cons, List.length_cons]
    push_cast
    constructor <;> omega

/-- C2 (amended): for every receipt whose item prices each parse (or fail to parse, giving 0)
to a finite float between 0 and `2^53`, with no restriction on the retailer, date, time and
total strings, and whose size keeps the sum in range (retailer length plus `2^52` times the
number of items below `2^62`), the score is an integer greater than or equal to 0. -/
theorem calculatePoints_nonneg (conv : F64 → Int) (r : Receipt)
    (hprices : ∀ item ∈ r.Items.toList, priceInRange item.Price = true)
    (hsize : (r.Retailer.length : Int) + 4503599627370496 * (r.Items.toList.length : Int)
      < 4611686018427387904) :
    0 ≤ calculatePoints conv r := by
  rw [calculatePoints_eq]
  obtain ⟨s1, s2⟩ := sum_itemPoints_range conv r.Items.toList hprices
  have c1 : 0 ≤ countAlphanumeric r.Retailer := by
    rw [countAlphanumeric_eq_countP]; exact Int.natCast_nonneg _
  have c2 : countAlphanumeric r.Retailer ≤ (r.Retailer.length : Int) := by
    rw [countAlphanumeric_eq_countP]
    exact_mod_cast List.countP_le_length _
  have l0 : (0 : Int) ≤ (r.Items.toList.length : Int) := Int.natCast_nonneg _
  rw [wrap64_of_range]
  · split_ifs <;> omega
  · split_ifs <;> omega
  · split_ifs <;> omega

set_option maxRecDepth 100000 in
/-- Witness for C2: the first example receipt. -/
theorem calculatePoints_nonneg_witness : 0 ≤ calculatePoints convAmd64 exampleReceipt1 :=
  calculatePoints_nonneg convAmd64 exampleReceipt1 (by decide) (by decide)

set_option maxRecDepth 100000 in
/-- Counterexample to C2 as stated: a receipt whose only item has the price `-100.00` and an
empty description scores -20. -/
theorem calculatePoints_nonneg_counterexample :
    calculatePoints convAmd64 negativePriceReceipt = -20
      ∧ ¬ (0 ≤ calculatePoints convAmd64 negativePriceReceipt) := by
  decide

/-! ## The item rule -/

/-- C10 (amended): for every item, with any description, calculatePoints adds for that item
the float64 value `int(math.Ceil(price * 0.2))` exactly when the number of bytes of the UTF-8
encoding of its trimmed description is divisible by 3 (a description that is empty after
trimming counts as divisible), and nothing otherwise: the score with the item is the score
without it plus the change of the item-pair bonus plus that contribution.  On an ASCII
description the byte count is the character count, and on a price `d+.dd` below `10^13` the
float64 value is the exact `ceil(price * 0.2)`. -/
theorem item_rule_bytes (conv : F64 → Int) (r : Receipt) (before after : List Item)
    (item : Item) :
    calculatePoints conv (withItems r (before ++ item :: after))
        = wrap64 (calculatePoints conv (withItems r (before ++ after))
            + 5 * ((((before ++ item :: after).length / 2 : Nat) : Int)
                - (((before ++ after).length / 2 : Nat) : Int))
            + itemPoints conv item)
      ∧ (byteLen (trimSpace item.ShortDescription.data) % 3 = 0 →
          itemPoints conv item
            = F64.toInt conv (F64.ceil (F64.mul (parsePrice item.Price).1 const02)))
      ∧ (byteLen (trimSpace item.ShortDescription.data) % 3 ≠ 0 → itemPoints conv item = 0)
      ∧ (trimSpace item.ShortDescription.data = [] →
          byteLen (trimSpace item.ShortDescription.data) % 3 = 0)
      ∧ ((∀ c ∈ item.ShortDescription.data, c.toNat < 128) →
          byteLen (trimSpace item.ShortDescription.data)
            = (trimSpace item.ShortDescription.data).length)
      ∧ (∀ n : Nat, centsOf item.Price.data = some n → n < 10 ^ 15 →
          F64.toInt conv (F64.ceil (F64.mul (parsePrice item.Price).1 const02))
            = ⌈dollars n * (2 / 10)⌉) := by
  refine ⟨?_, ?_, ?_, ?_, ?_, ?_⟩
  · rw [calculatePoints_eq, calculatePoints_eq, add_assoc (wrap64 _), wrap64_add_left]
    congr 1
    simp only [withItems, Slice.toList, List.map_append, List.map_cons, List.sum_append,
      List.sum_cons]
    have e1 : ((((before ++ item :: after).length : Nat) : Int) / 2) * 5
        = 5 * ((((before ++ item :: after).length / 2 : Nat)) : Int) := by omega
    have e2 : ((((before ++ after).length : Nat) : Int) / 2) * 5
        = 5 * ((((before ++ after).length / 2 : Nat)) : Int) := by omega
    rw [e1, e2]
    ring
  · intro h
    unfold itemPoints
    rw [if_pos h]
  · intro h
    unfold itemPoints
    rw [if_neg h]
  · intro h
    rw [h]
    rfl
  · intro h
    apply byteLen_ascii
    intro c hc
    have h1 : trimSpace item.ShortDescription.data
        = ((item.ShortDescription.data.dropWhile isSpace).rdropWhile isSpace) := rfl
    rw [h1] at hc
    exact h c ((List.dropWhile_sublist _).subset ((List.rdropWhile_prefix _ _).subset hc))
  · intro n hn hlt
    rw [parsePrice_cents _ n hn hlt, item_cents conv n hlt, ceil_fifth]

set_option maxRecDepth 100000 in
/-- Witness for C10: the last item of the first example, `   Klarbrunn 12-PK 12 FL OZ  `
at 12.00, whose trimmed description has 24 bytes, contributes `ceil(12.00 * 0.2) = 3`. -/
theorem item_rule_bytes_witness :
    itemPoints convAmd64 ⟨"   Klarbrunn 12-PK 12 FL OZ  ", "12.00"⟩ = ⌈dollars 1200 * (2 / 10)⌉ :=
  ((item_rule_bytes convAmd64 exampleReceipt1 [] []
      ⟨"   Klarbrunn 12-PK 12 FL OZ  ", "12.00"⟩).2.1 (by decide)).trans
    ((item_rule_bytes convAmd64 exampleReceipt1 [] []
      ⟨"   Klarbrunn 12-PK 12 FL OZ  ", "12.00"⟩).2.2.2.2.2 1200 (by decide) (by norm_num))

set_option maxRecDepth 100000 in
/-- Counterexample to C10 as stated: the description `éa` has two characters, a number not
divisible by 3, but three bytes; the item at 5.00 adds 1 point to the score. -/
theorem item_rule_counterexample :
    accentReceipt.Items = Slice.of [⟨"éa", "5.00"⟩]
      ∧ (trimSpace "éa".data).length = 2
      ∧ calculatePoints convAmd64 accentReceipt = 1
      ∧ calculatePoints convAmd64 (withItems accentReceipt []) = 0 := by
  decide

/-! ## The rules on the date and the time -/

/-- The score as the reduction to `int` of the sum of the named rule contributions. -/
theorem calculatePoints_rules (conv : F64 → Int) (r : Receipt) :
    calculatePoints conv r =
      wrap64 (countAlphanumeric r.Retailer + totalRules r.Total
        + ((r.Items.toList.length : Int) / 2) * 5
        + ((r.Items.toList.map (itemPoints conv)).sum)
        + dayRule r.PurchaseDate + timeRule r.PurchaseTime) := by
  rw [calculatePoints_eq]
  unfold totalRules dayRule timeRule
  congr 1
  ring

theorem calculatePoints_withTime (conv : F64 → Int) (r : Receipt) (t : String) :
    calculatePoints conv r
      = wrap64 (calculatePoints conv (withTime r t) + timeRule r.PurchaseTime - timeRule t) := by
  rw [calculatePoints_rules conv r, calculatePoints_rules conv (withTime r t), sub_eq_add_neg,
    add_assoc (wrap64 _), wrap64_add_left]
  congr 1
  simp only [withTime]
  ring

theorem calculatePoints_withDate (conv : F64 → Int) (r : Receipt) (d : String) :
    calculatePoints conv r
      = wrap64 (calculatePoints conv (withDate r d) + dayRule r.PurchaseDate - dayRule d) := by
  rw [calculatePoints_rules conv r, calculatePoints_rules conv (withDate r d), sub_eq_add_neg,
    add_assoc (wrap64 _), wrap64_add_left]
  congr 1
  simp only [withDate]
  ring

theorem calculatePoints_withTotal (conv : F64 → Int) (r : Receipt) (t : String) :
    calculatePoints conv r
      = wrap64 (calculatePoints conv (withTotal r t) + totalRules r.Total - totalRules t) := by
  rw [calculatePoints_rules conv r, calculatePoints_rules conv (withTotal r t), sub_eq_add_neg,
    add_assoc (wrap64 _), wrap64_add_left]
  congr 1
  simp only [withTotal]
  ring

theorem digitVal_le (c : Char) (h : isDigit c = true) : digitVal c ≤ 9 := by
  obtain ⟨h1, h2⟩ := isDigit_range c h
  unfold digitVal
  omega

theorem getnum_fixed (s v : List Char) (n : Nat) (h : getnum s true = some (n, v)) :
    ∃ c0 c1, s = c0 :: c1 :: v ∧ isDigit c0 = true ∧ isDigit c1 = true
      ∧ n = digitVal c0 * 10 + digitVal c1 := by
  rcases s with _ | ⟨c0, _ | ⟨c1, rest⟩⟩
  · simp [getnum] at h
  · by_cases h0 : isDigit c0 = true <;> simp [getnum, h0] at h
  · by_cases h0 : isDigit c0 = true
    · by_cases h1 : isDigit c1 = true
      · simp only [getnum, h0, h1, not_true_eq_false, if_false, if_true, Option.some.injEq,
          Prod.mk.injEq] at h
        obtain ⟨hn, hv⟩ := h
        subst hv
        exact ⟨c0, c1, rfl, h0, h1, hn.symm⟩
      · simp [getnum, h0, h1] at h
    · simp [getnum, h0] at h

theorem getnum_two_digits (s v : List Char) (n : Nat) (h : getnum s false = some (n, v))
    (hn : 10 ≤ n) :
    ∃ c0 c1, s = c0 :: c1 :: v ∧ isDigit c0 = true ∧ isDigit c1 = true
      ∧ n = digitVal c0 * 10 + digitVal c1 := by
  rcases s with _ | ⟨c0, _ | ⟨c1, rest⟩⟩
  · simp [getnum] at h
  · by_cases h0 : isDigit c0 = true
    · simp only [getnum, h0, not_true_eq_false, if_false, Bool.false_eq_true, Option.some.injEq,
        Prod.mk.injEq] at h
      have := digitVal_le c0 h0
      omega
    · simp [getnum, h0] at h
  · by_cases h0 : isDigit c0 = true
    · by_cases h1 : isDigit c1 = true
      · simp only [getnum, h0, h1, not_true_eq_false, if_false, if_true, Option.some.injEq,
          Prod.mk.injEq] at h
        obtain ⟨hn', hv⟩ := h
        subst hv
        exact ⟨c0, c1, rfl, h0, h1, hn'.symm⟩
      · simp only [getnum, h0, h1, not_true_eq_false, if_false, Bool.false_eq_true,
          Option.some.injEq, Prod.mk.injEq] at h
        have := digitVal_le c0 h0
        omega
    · simp [getnum, h0] at h

/-- A time that `time.Parse` accepts with an hour of 10 or more is a valid `HH:MM` time with
that hour. -/
theorem hourOfTime_of_parseClock (s : List Char) (t : Time) (h : parseClock s = some t)
    (h10 : 10 ≤ t.hour) : hourOfTime s = some t.hour := by
  unfold parseClock at h
  cases hg : getnum s false with
  | none => rw [hg] at h; cases h
  | some p =>
    obtain ⟨hour, v1⟩ := p
    rw [hg] at h
    simp only [] at h
    split_ifs at h with h24
    cases v1 with
    | nil => cases h
    | cons sep v2 =>
      simp only [] at h
      split_ifs at h with hsep
      cases hm : getnum v2 true with
      | none => rw [hm] at h; cases h
      | some q =>
        obtain ⟨minute, v3⟩ := q
        rw [hm] at h
        simp only [] at h
        split_ifs at h with h60 hv3
        simp only [Option.some.injEq] at h
        subst h
        simp only [] at h10 ⊢
        simp only [not_not] at hsep hv3
        subst hsep hv3
        obtain ⟨c0, c1, rfl, hc0, hc1, hh⟩ := getnum_two_digits s _ hour hg h10
        obtain ⟨m0, m1, rfl, hm0, hm1, hmm⟩ := getnum_fixed v2 _ minute hm
        have h24' : digitVal c0 * 10 + digitVal c1 < 24 := by omega
        have h60' : digitVal m0 * 10 + digitVal m1 < 60 := by omega
        simp [hourOfTime, decimalValue_two, hc0, hc1, hm0, hm1, h24', h60', hh]

theorem timeRule_eq_ten_iff (s : String) :
    timeRule s = 10 ↔ (orZero (parseClock s.data)).hour = 14 := by
  unfold timeRule
  split_ifs with h
  · exact ⟨fun _ => h, fun _ => rfl⟩
  · exact ⟨fun e => absurd e (by decide), fun e => absurd e h⟩

set_option maxRecDepth 100000 in
/-- C11: the afternoon-window rule contributes 10 points if and only if the purchase time
parses (as `time.Parse` with the layout `15:04` does) and its hour equals 14, which is the
case exactly for the valid `HH:MM` times 14:00 through 14:59; it contributes 0 for every
other time, including every time from 15:00 to 15:59 and every unparseable time.  The
contribution is what the score gains over the same receipt with an unparseable time. -/
theorem time_rule_hour_14 (conv : F64 → Int) (r : Receipt) (s : String) :
    calculatePoints conv r = wrap64 (calculatePoints conv (withTime r "") + timeRule r.PurchaseTime)
      ∧ (timeRule s = 10 ↔ ∃ t : Time, parseClock s.data = some t ∧ t.hour = 14)
      ∧ (timeRule s = 10 ↔ hourOfTime s.data = some 14)
      ∧ (timeRule s ≠ 10 → timeRule s = 0)
      ∧ (hourOfTime s.data = some 15 → timeRule s = 0)
      ∧ (parseClock s.data = none → timeRule s = 0) := by
  have hparse : timeRule s = 10 ↔ ∃ t : Time, parseClock s.data = some t ∧ t.hour = 14 := by
    rw [timeRule_eq_ten_iff]
    cases hp : parseClock s.data with
    | none => simp [orZero, Time.zero]
    | some t => simp [orZero]
  refine ⟨?_, hparse, ?_, ?_, ?_, ?_⟩
  · have h := calculatePoints_withTime conv r ""
    have h0 : timeRule "" = 0 := by decide
    rw [h0, sub_zero] at h
    exact h
  · constructor
    · intro h
      obtain ⟨t, ht, h14⟩ := hparse.1 h
      have := hourOfTime_of_parseClock s.data t ht (by omega)
      rw [this, h14]
    · intro h
      rw [timeRule_eq_ten_iff]
      exact parseClock_of_hourOfTime s.data 14 h
  · intro h
    unfold timeRule at h ⊢
    split_ifs with h14
    · rw [if_pos h14] at h; exact absurd rfl h
    · rfl
  · intro h
    have := parseClock_of_hourOfTime s.data 15 h
    unfold timeRule
    rw [if_neg (by omega)]
  · intro h
    unfold timeRule
    rw [h]
    rfl

set_option maxRecDepth 100000 in
/-- Witness for C11: the time 14:30 of `TestCalculatePoints` earns the 10 points, and 15:30
earns none. -/
theorem time_rule_hour_14_witness : timeRule "14:30" = 10 ∧ timeRule "15:30" = 0 :=
  ⟨(time_rule_hour_14 convAmd64 testReceipt "14:30").2.2.1.2 (by decide),
   (time_rule_hour_14 convAmd64 testReceipt "15:30").2.2.2.2.1 (by decide)⟩

set_option maxRecDepth 100000 in
/-- C12, the code at 15:30: the purchase time 15:30 is a valid time between 2:00 PM and
4:00 PM, the rule on the time contributes 0 for it, and the receipt of `TestCalculatePoints`
with this time scores 20 where it scores 30 at 14:30. -/
theorem time_rule_at_three_pm :
    hourOfTime "15:30".data = some 15
      ∧ timeRule "15:30" = 0
      ∧ calculatePoints convAmd64 threePmReceipt = 20
      ∧ calculatePoints convAmd64 testReceipt = 30 := by
  decide

/-- C13 (amended): an unparseable purchase date is treated as the zero time, January 1 of
year 1, whose day of month is 1: for every receipt whose purchaseDate does not parse,
calculatePoints does not abort, the odd-day rule contributes 6 points, and the score is the
score of the same receipt dated `0001-01-01`. -/
theorem unparseable_date_is_day_one (conv : F64 → Int) (r : Receipt)
    (h : parseDate r.PurchaseDate.data = none) :
    orZero (parseDate r.PurchaseDate.data) = Time.zero
      ∧ Time.zero.day = 1
      ∧ dayRule r.PurchaseDate = 6
      ∧ calculatePoints conv r
          = wrap64 (calculatePoints conv (withDate r "2022-01-02") + dayRule r.PurchaseDate)
      ∧ calculatePoints conv r = calculatePoints conv (withDate r "0001-01-01") := by
  have hz : orZero (parseDate r.PurchaseDate.data) = Time.zero := by rw [h]; rfl
  have h6 : dayRule r.PurchaseDate = 6 := by
    unfold dayRule
    rw [hz]
    rfl
  refine ⟨hz, rfl, h6, ?_, ?_⟩
  · have h1 := calculatePoints_withDate conv r "2022-01-02"
    have h0 : dayRule "2022-01-02" = 0 := by decide
    rw [h0, sub_zero] at h1
    exact h1
  · have h1 := calculatePoints_withDate conv r "0001-01-01"
    have h0 : dayRule "0001-01-01" = 6 := by decide
    rw [h0, h6, add_sub_cancel_right] at h1
    rw [h1]
    rw [calculatePoints_rules]
    exact wrap64_idem _

set_option maxRecDepth 100000 in
/-- Witness for C13: the date `2022-02-30` does not parse and earns the 6 points. -/
theorem unparseable_date_is_day_one_witness :
    dayRule "2022-02-30" = 6
      ∧ calculatePoints convAmd64 (bareReceipt "2022-02-30")
          = calculatePoints convAmd64 (withDate (bareReceipt "2022-02-30") "0001-01-01") :=
  ⟨(unparseable_date_is_day_one convAmd64 (bareReceipt "2022-02-30") (by decide)).2.2.1,
   (unparseable_date_is_day_one convAmd64 (bareReceipt "2022-02-30") (by decide)).2.2.2.2⟩

set_option maxRecDepth 100000 in
/-- Counterexample to C13 as stated: the dates `` (empty) and `2022-02-30` do not parse, and
a receipt on which no other rule contributes scores 6 with either of them, and 0 with the
even day `2022-01-02`. -/
theorem unparseable_date_counterexample :
    parseDate "".data = none ∧ parseDate "2022-02-30".data = none
      ∧ calculatePoints convAmd64 (bareReceipt "") = 6
      ∧ calculatePoints convAmd64 (bareReceipt "2022-02-30") = 6
      ∧ calculatePoints convAmd64 (bareReceipt "2022-01-02") = 0 := by
  decide

/-! ## Range errors -/

/-- A magnitude of `2^1025` or more rounds beyond the largest finite float64. -/
theorem roundUnits_overflow (N e : Nat) (he : 1025 ≤ e) (h1 : 2 ^ e ≤ N) (h2 : N < 2 ^ (e + 1)) :
    overflowThreshold ≤ roundUnits (N * unit) 1 := by
  have hsplit : 2 ^ (53 + (e + 1022)) = 2 ^ (e + 1) * 2 ^ 1074 := by
    have hexp : 53 + (e + 1022) = (e + 1) + 1074 := by omega
    rw [hexp, pow_add]
  have hN : N * unit < 1 * 2 ^ (53 + (e + 1022)) := by
    rw [unit_eq, one_mul, hsplit]
    exact Nat.mul_lt_mul_of_pos_right h2 (Nat.two_pow_pos 1074)
  obtain ⟨_, b2⟩ := roundUnits_bounds (N * unit) 1 (e + 1022) (by norm_num) hN
  have hlow : 2 ^ 52 * 2 ^ (e + 1022) ≤ N * unit := by
    have hexp : 52 + (e + 1022) = e + 1074 := by omega
    rw [unit_eq, ← pow_add, hexp, pow_add]
    exact Nat.mul_le_mul_right _ h1
  have hthr : overflowThreshold ≤ 2 ^ 51 * 2 ^ (e + 1022) := by
    rw [overflowThreshold_eq, ← pow_add]
    exact Nat.pow_le_pow_right (by norm_num) (by omega)
  have e52 : (2 : Nat) ^ 52 = 4503599627370496 := by norm_num
  have e51 : (2 : Nat) ^ 51 = 2251799813685248 := by norm_num
  rw [e52] at hlow
  rw [e51] at hthr
  rw [mul_one, one_mul] at b2
  generalize roundUnits (N * unit) 1 = R at b2 ⊢
  generalize N * unit = M at b2 hlow
  generalize 2 ^ (e + 1022) = x at b2 hlow hthr
  generalize overflowThreshold = T at hthr ⊢
  omega

theorem tenPow400_bounds : 2 ^ 1328 ≤ 10 ^ 400 ∧ 10 ^ 400 < 2 ^ (1328 + 1) := by
  constructor <;> norm_num

theorem value_1e400 :
    FloatLit.value ⟨false, false, 1, 0, false, 400⟩ = (F64.inf false, true) := by
  have ho := roundUnits_overflow (10 ^ 400) 1328 (by norm_num) tenPow400_bounds.1
    tenPow400_bounds.2
  have e1 : (400 : Nat) - (0 + 0) = 400 := rfl
  have e2 : (0 : Nat) + 0 - 400 = 0 := rfl
  unfold FloatLit.value
  simp only [Bool.false_eq_true, if_false]
  rw [e1, e2, pow_zero, one_mul]
  unfold roundToF64
  simp only []
  rw [if_pos ho]

set_option maxRecDepth 100000 in
/-- The price `1e400` fails to parse with a range error, and the value returned is +Inf. -/
theorem parsePrice_1e400 : parsePrice "1e400" = (F64.inf false, true) := by
  have hs : special "1e400".data = none := by decide
  have hr : readFloat "1e400".data = some ⟨false, false, 1, 0, false, 400⟩ := by decide
  unfold parsePrice parseFloat
  rw [hs, hr]
  exact value_1e400

set_option maxRecDepth 100000 in
/-- An item with the price `1e400` and an empty description contributes the
implementation-dependent conversion of +Inf. -/
theorem itemPoints_1e400 (conv : F64 → Int) :
    itemPoints conv ⟨"", "1e400"⟩ = wrap64 (conv (F64.inf false)) := by
  have hm : F64.mul (F64.inf false) const02 = F64.inf false := by decide
  have hl : byteLen (trimSpace ("" : String).data) % 3 = 0 := by decide
  show (if byteLen (trimSpace ("" : String).data) % 3 = 0 then
      F64.toInt conv (F64.ceil (F64.mul (parsePrice "1e400").1 const02)) else 0) = _
  rw [if_pos hl, parsePrice_1e400]
  show F64.toInt conv (F64.ceil (F64.mul (F64.inf false) const02)) = _
  rw [hm]
  rfl

/-! ## Price syntax errors -/

theorem parsePrice_syntaxError (s : String) (h : isSyntaxError s = true) :
    parsePrice s = (F64.fin 0, true) := by
  unfold isSyntaxError at h
  simp only [Bool.and_eq_true, Option.isNone_iff_eq_none] at h
  unfold parsePrice parseFloat
  rw [h.1, h.2]

theorem roundUnits_zero : roundUnits (0 * unit) 100 = 0 := by
  have := roundUnits_exact 100 0 0 (by norm_num) (by norm_num)
  rw [Nat.zero_mul, Nat.zero_mul] at this
  rw [Nat.zero_mul]
  exact this

theorem toInt_zero (conv : F64 → Int) :
    F64.toInt conv (F64.ceil (F64.mul (F64.fin 0) const02)) = 0 := by
  have h := item_cents conv 0 (by norm_num)
  rw [roundUnits_zero] at h
  have e1 : (((0 + 499) / 500 : Nat) : Int) = 0 := rfl
  rw [e1] at h
  exact h

theorem itemPoints_of_zero (conv : F64 → Int) (item : Item)
    (h : (parsePrice item.Price).1 = F64.fin 0) : itemPoints conv item = 0 := by
  unfold itemPoints
  split_ifs
  · rw [h]
    exact toInt_zero conv
  · rfl

theorem calculatePoints_insert (conv : F64 → Int) (r : Receipt) (before after : List Item)
    (item : Item) :
    calculatePoints conv (withItems r (before ++ item :: after))
      = wrap64 (calculatePoints conv (withItems r (before ++ after))
          + 5 * ((((before ++ item :: after).length / 2 : Nat) : Int)
              - (((before ++ after).length / 2 : Nat) : Int))
          + itemPoints conv item) := by
  rw [calculatePoints_eq, calculatePoints_eq, add_assoc (wrap64 _), wrap64_add_left]
  congr 1
  simp only [withItems, Slice.toList, List.map_append, List.map_cons, List.sum_append,
    List.sum_cons]
  have e1 : ((((before ++ item :: after).length : Nat) : Int) / 2) * 5
      = 5 * ((((before ++ item :: after).length / 2 : Nat)) : Int) := by omega
  have e2 : ((((before ++ after).length : Nat) : Int) / 2) * 5
      = 5 * ((((before ++ after).length / 2 : Nat)) : Int) := by omega
  rw [e1, e2]
  ring

set_option maxRecDepth 100000 in
theorem parsePrice_zero : (parsePrice "0").1 = F64.fin 0 := by decide

/-- C14 (amended): a price syntax error is treated as the value 0: for every item whose price
string `strconv.ParseFloat` rejects with a syntax error, the parsed price is 0, the
description-length rule contributes 0 points for that item whatever its description, the
score is the score of the receipt with that price replaced by `0`, and it is the score
without the item plus the change of the item-pair bonus. -/
theorem price_syntax_error_is_zero (conv : F64 → Int) (r : Receipt)
    (before after : List Item) (item : Item) (h : isSyntaxError item.Price = true) :
    parsePrice item.Price = (F64.fin 0, true)
      ∧ itemPoints conv item = 0
      ∧ calculatePoints conv (withItems r (before ++ item :: after))
          = calculatePoints conv
              (withItems r (before ++ ⟨item.ShortDescription, "0"⟩ :: after))
      ∧ calculatePoints conv (withItems r (before ++ item :: after))
          = wrap64 (calculatePoints conv (withItems r (before ++ after))
              + 5 * ((((before ++ item :: after).length / 2 : Nat) : Int)
                  - (((before ++ after).length / 2 : Nat) : Int))) := by
  have hp := parsePrice_syntaxError item.Price h
  have h0 : itemPoints conv item = 0 := itemPoints_of_zero conv item (by rw [hp])
  have hz : itemPoints conv ⟨item.ShortDescription, "0"⟩ = 0 :=
    itemPoints_of_zero conv ⟨item.ShortDescription, "0"⟩ parsePrice_zero
  have hlen : (before ++ (⟨item.ShortDescription, "0"⟩ : Item) :: after).length
      = (before ++ item :: after).length := by
    rw [List.length_append, List.length_append, List.length_cons, List.length_cons]
  refine ⟨hp, h0, ?_, ?_⟩
  · rw [calculatePoints_insert conv r before after item,
      calculatePoints_insert conv r before after ⟨item.ShortDescription, "0"⟩, h0, hz, hlen]
  · rw [calculatePoints_insert conv r before after item, h0, add_zero]


set_option maxRecDepth 100000 in
/-- Witness for C14: the price `abc` is a syntax error; an item with that price contributes
nothing, whatever its description. -/
theorem price_syntax_error_is_zero_witness :
    parsePrice "abc" = (F64.fin 0, true) ∧ itemPoints convAmd64 ⟨"Gatorade", "abc"⟩ = 0 :=
  ⟨(price_syntax_error_is_zero convAmd64 exampleReceipt2 [] [] ⟨"Gatorade", "abc"⟩
      (by decide)).1,
   (price_syntax_error_is_zero convAmd64 exampleReceipt2 [] [] ⟨"Gatorade", "abc"⟩
      (by decide)).2.1⟩

set_option maxRecDepth 100000 in
/-- Counterexample to C14 as stated.  The price `0x1p4` is not a decimal number (it is a
hexadecimal literal, 16), it parses without error, and an item with that price and an empty
description adds 4 points.  The price `1e400` fails to parse with a range error and the
parsed value is +Inf, not 0: the item contributes the implementation-dependent conversion of
+Inf, the smallest `int` on amd64 and the largest on arm64. -/
theorem price_syntax_error_counterexample :
    decimalChars "0x1p4" = false
      ∧ (parsePrice "0x1p4").2 = false
      ∧ itemPoints convAmd64 ⟨"", "0x1p4"⟩ = 4
      ∧ calculatePoints convAmd64 (withItems (bareReceipt "2022-01-02") [⟨"", "0x1p4"⟩]) = 4
      ∧ calculatePoints convAmd64 (withItems (bareReceipt "2022-01-02") []) = 0
      ∧ parsePrice "1e400" = (F64.inf false, true)
      ∧ itemPoints convAmd64 ⟨"", "1e400"⟩ = -9223372036854775808
      ∧ itemPoints convArm64 ⟨"", "1e400"⟩ = 9223372036854775807 := by
  refine ⟨by decide, by decide, by decide, by decide, by decide, parsePrice_1e400, ?_, ?_⟩
  · rw [itemPoints_1e400]; rfl
  · rw [itemPoints_1e400]; rfl

/-! ## Total syntax errors -/

theorem totalRules_syntaxError (total : String) (h : isSyntaxError total = true) :
    isRoundDollar total = true ∧ isMultipleOf total const025 = true ∧ totalRules total = 75 := by
  have hp := parsePrice_syntaxError total h
  have hq : 0 < unit / 4 := by rw [unit_div_four]; exact Nat.two_pow_pos 1072
  have h1 : isRoundDollar total = true := by
    unfold isRoundDollar
    simp only []
    rw [hp, const1_eq]
    exact (mod_isZero_iff 0 unit unit_pos).2 (dvd_zero _)
  have h2 : isMultipleOf total const025 = true := by
    unfold isMultipleOf
    simp only []
    rw [hp, const025_eq]
    exact (mod_isZero_iff 0 (unit / 4) hq).2 (dvd_zero _)
  refine ⟨h1, h2, ?_⟩
  unfold totalRules
  rw [h1, h2]
  rfl

set_option maxRecDepth 100000 in
/-- C16 (amended): for every receipt whose total string `strconv.ParseFloat` rejects with a
syntax error (for example `` or `abc`), the total is taken as 0, so both isRoundDollar and
isMultipleOf(total, 0.25) hold and calculatePoints adds 50 + 25 = 75 points from the two
total rules: the score is the score of the same receipt with the total `0`, and 75 more than
with the total `0.01`, which earns nothing. -/
theorem total_syntax_error_is_zero (conv : F64 → Int) (r : Receipt)
    (h : isSyntaxError r.Total = true) :
    (parsePrice r.Total).1 = F64.fin 0
      ∧ isRoundDollar r.Total = true
      ∧ isMultipleOf r.Total const025 = true
      ∧ totalRules r.Total = 75
      ∧ calculatePoints conv r = wrap64 (calculatePoints conv (withTotal r "0.01") + 75)
      ∧ calculatePoints conv r = calculatePoints conv (withTotal r "0") := by
  obtain ⟨h1, h2, h3⟩ := totalRules_syntaxError r.Total h
  refine ⟨by rw [parsePrice_syntaxError r.Total h], h1, h2, h3, ?_, ?_⟩
  · have hc := calculatePoints_withTotal conv r "0.01"
    have h0 : totalRules "0.01" = 0 := by decide
    rw [h0, sub_zero, h3] at hc
    exact hc
  · have hc := calculatePoints_withTotal conv r "0"
    have h0 : totalRules "0" = 75 := by decide
    rw [h0, h3, add_sub_cancel_right] at hc
    rw [hc, calculatePoints_rules]
    exact wrap64_idem _

set_option maxRecDepth 100000 in
/-- Witness for C16: the receipt of `TestCalculatePoints` with the total `abc`. -/
theorem total_syntax_error_is_zero_witness :
    totalRules "abc" = 75
      ∧ calculatePoints convAmd64 (withTotal testReceipt "abc")
          = wrap64 (calculatePoints convAmd64 (withTotal (withTotal testReceipt "abc") "0.01")
              + 75) :=
  ⟨(total_syntax_error_is_zero convAmd64 (withTotal testReceipt "abc") (by decide)).2.2.2.1,
   (total_syntax_error_is_zero convAmd64 (withTotal testReceipt "abc") (by decide)).2.2.2.2.1⟩

theorem totalRules_1e400 : totalRules "1e400" = 0 := by
  have h1 : isRoundDollar "1e400" = false := by
    unfold isRoundDollar
    simp only []
    rw [parsePrice_1e400]
    rfl
  have h2 : isMultipleOf "1e400" const025 = false := by
    unfold isMultipleOf
    simp only []
    rw [parsePrice_1e400]
    rfl
  unfold totalRules
  rw [h1, h2]
  rfl

set_option maxRecDepth 100000 in
/-- Counterexample to C16 as stated.  The totals `NaN` and `Inf` are not decimal numbers and
parse without error to NaN and +Inf; the total `1e400` fails to parse with a range error and
is taken as +Inf; in each case neither rule on the total holds and the receipt earns 0
points from them.  The total `0x1p-2` is a hexadecimal literal for 0.25 and earns 25. -/
theorem total_syntax_error_counterexample :
    decimalChars "NaN" = false ∧ decimalChars "Inf" = false ∧ decimalChars "0x1p-2" = false
      ∧ totalRules "NaN" = 0 ∧ totalRules "Inf" = 0 ∧ totalRules "0x1p-2" = 25
      ∧ calculatePoints convAmd64 (withTotal (bareReceipt "2022-01-02") "NaN") = 0
      ∧ parsePrice "1e400" = (F64.inf false, true)
      ∧ totalRules "1e400" = 0 := by
  refine ⟨by decide, by decide, by decide, by decide, by decide, by decide, by decide,
    parsePrice_1e400, totalRules_1e400⟩

/-! ## Item order and store consistency -/

/-- C17: the score does not depend on the order of the items: for every receipt and every
permutation of its items, calculatePoints of the receipt with the permuted items equals
calculatePoints of the receipt. -/
theorem score_order_independent (conv : F64 → Int) (r : Receipt) (items : List Item)
    (h : List.Perm r.Items.toList items) :
    calculatePoints conv (withItems r items) = calculatePoints conv r := by
  rw [calculatePoints_eq, calculatePoints_eq]
  have hsum : (items.map (itemPoints conv)).sum = (r.Items.toList.map (itemPoints conv)).sum :=
    ((h.map (itemPoints conv)).sum_eq).symm
  have hlen : items.length = r.Items.toList.length := h.length_eq.symm
  simp only [withItems, Slice.toList, hsum, hlen]

set_option maxRecDepth 100000 in
/-- Witness for C17: the receipt of `TestCalculatePoints` with its two items exchanged scores
30 as well. -/
theorem score_order_independent_witness :
    calculatePoints convAmd64
        (withItems testReceipt
          [⟨"Emils Cheese Pizza", "12.25"⟩, ⟨"Mountain Dew 12PK", "6.49"⟩])
      = calculatePoints convAmd64 testReceipt :=
  score_order_independent convAmd64 testReceipt
    [⟨"Emils Cheese Pizza", "12.25"⟩, ⟨"Mountain Dew 12PK", "6.49"⟩]
    (List.Perm.swap _ _ [])

/-- The store after a sequence of submissions: an entry that was there is kept, and a key
without entry gets the entry of the first submitted receipt with that identifier. -/
theorem submitAll_apply (lib : IdentityLib) (conv : F64 → Int) (rs : List Receipt) (s : Store)
    (k : String) :
    submitAll lib conv s rs k =
      match s k with
      | some v => some v
      | none =>
        (rs.find? (fun r => decide (generateUUID lib r = k))).map
          (fun r => (⟨k, calculatePoints conv r⟩ : ReceiptPoints)) := by
  induction rs generalizing s with
  | nil =>
    cases hs : s k with
    | none => simp [submitAll, hs]
    | some v => simp [submitAll, hs]
  | cons r rest ih =>
    show submitAll lib conv (submit lib conv s r).1 rest k = _
    rw [ih]
    cases hs : s k with
    | some v =>
      rw [submit_keeps lib conv s r k v hs]
    | none =>
      rw [submit_fst_apply]
      by_cases hk : generateUUID lib r = k
      · have hn : s (generateUUID lib r) = none := by rw [hk]; exact hs
        simp [hk, hn, hs]
      · have hk' : ¬ (k = generateUUID lib r) := fun e => hk e.symm
        simp [hk, hk', hs]

/-- C18: store consistency.  In every store reachable from the empty store by a sequence of
submissions, an entry stored under the key `k` has its ID field equal to `k`, and its Points
are calculatePoints of a submitted receipt with identifier `k`, namely the first submitted
receipt with that identifier. -/
theorem store_consistent (lib : IdentityLib) (conv : F64 → Int) (rs : List Receipt)
    (k : String) (v : ReceiptPoints) (h : submitAll lib conv emptyStore rs k = some v) :
    v.ID = k
      ∧ ∃ r ∈ rs, generateUUID lib r = k ∧ calculatePoints conv r = v.Points
          ∧ rs.find? (fun r => decide (generateUUID lib r = k)) = some r := by
  rw [submitAll_apply] at h
  have he : emptyStore k = none := rfl
  rw [he] at h
  simp only [Option.map_eq_some'] at h
  obtain ⟨r, hfind, hv⟩ := h
  subst hv
  refine ⟨rfl, r, List.mem_of_find?_eq_some hfind, ?_, rfl, hfind⟩
  have := List.find?_some hfind
  simpa using this

set_option maxRecDepth 100000 in
/-- Witness for C18: after submitting the first example, the second example and the first
example again, the entry of the first example holds its identifier and its score 28. -/
theorem store_consistent_witness :
    (⟨"Target35.35", 28⟩ : ReceiptPoints).ID = "Target35.35"
      ∧ ∃ r ∈ [exampleReceipt1, exampleReceipt2, exampleReceipt1],
          generateUUID sampleLib r = "Target35.35"
          ∧ calculatePoints convAmd64 r = (⟨"Target35.35", 28⟩ : ReceiptPoints).Points
          ∧ [exampleReceipt1, exampleReceipt2, exampleReceipt1].find?
              (fun r => decide (generateUUID sampleLib r = "Target35.35")) = some r :=
  store_consistent sampleLib convAmd64 [exampleReceipt1, exampleReceipt2, exampleReceipt1]
    "Target35.35" ⟨"Target35.35", 28⟩ (by decide)

/-! ## The identifier -/

theorem char_eq_of_toNat (c d : Char) (h : c.toNat = d.toNat) : c = d := by
  apply Char.ext
  apply UInt32.ext
  exact h

theorem char_ofNat_toNat (c : Char) : Char.ofNat c.toNat = c := by
  apply char_eq_of_toNat
  have h : c.toNat.isValidChar := c.valid
  unfold Char.ofNat
  rw [dif_pos h]
  rfl

theorem hexVal_hexDigit (n : Nat) (h : n < 16) : hexVal (hexDigit n) = n := by
  interval_cases n <;> decide

theorem unescapeChar_escapeChar (e : Bool) (c : Char) (r : List Char) :
    unescapeChar (escapeChar e c ++ r) = some (c, r) := by
  have hcv := char_ofNat_toNat c
  unfold escapeChar
  simp only
  split_ifs with h1 h2 h3 h4 h5 h6 h7 h8
  · rcases h1 with h | h
    · have : c = '\\' := char_eq_of_toNat _ _ h
      subst this
      rfl
    · have : c = '"' := char_eq_of_toNat _ _ h
      subst this
      rfl
  · rw [h2.1] at hcv
    rw [← hcv]
    rfl
  · rw [h3.1] at hcv
    rw [← hcv]
    rfl
  · rw [h4] at hcv
    rw [← hcv]
    rfl
  · rw [h5] at hcv
    rw [← hcv]
    rfl
  · rw [h6] at hcv
    rw [← hcv]
    rfl
  · have hv : c.toNat < 64 := by omega
    have e1 := hexVal_hexDigit (c.toNat / 16) (by omega)
    have e2 := hexVal_hexDigit (c.toNat % 16) (by omega)
    show some (Char.ofNat (((hexVal '0' * 16 + hexVal '0') * 16 + hexVal (hexDigit (c.toNat / 16))) * 16
      + hexVal (hexDigit (c.toNat % 16))), r) = some (c, r)
    rw [e1, e2]
    have e0 : hexVal '0' = 0 := by decide
    rw [e0]
    have : ((0 * 16 + 0) * 16 + c.toNat / 16) * 16 + c.toNat % 16 = c.toNat := by omega
    rw [this, hcv]
  · have e2 := hexVal_hexDigit (c.toNat % 16) (by omega)
    show some (Char.ofNat (((hexVal '2' * 16 + hexVal '0') * 16 + hexVal '2') * 16
      + hexVal (hexDigit (c.toNat % 16))), r) = some (c, r)
    rw [e2]
    have e0 : hexVal '0' = 0 := by decide
    have e2 : hexVal '2' = 2 := by decide
    rw [e0, e2]
    have : ((2 * 16 + 0) * 16 + 2) * 16 + c.toNat % 16 = c.toNat := by omega
    rw [this, hcv]
  · have hne : c ≠ '\\' := by
      intro hc
      apply h1
      left
      rw [hc]
      rfl
    show unescapeChar (c :: r) = some (c, r)
    simp only [unescapeChar]
    rw [if_neg hne]

theorem char_toNat_lt (c : Char) : c.toNat < 1114112 := by
  have h := c.valid
  unfold UInt32.isValidChar Nat.isValidChar at h
  show c.val.toNat < 1114112
  omega

theorem utf8Encode_prefix (c d : Char) (r s : List Nat)
    (h : utf8Encode c ++ r = utf8Encode d ++ s) : c = d ∧ r = s := by
  have hc := char_toNat_lt c
  have hd := char_toNat_lt d
  unfold utf8Encode at h
  simp only at h
  split_ifs at h <;>
    simp only [List.cons_append, List.nil_append, List.cons.injEq] at h <;>
    obtain ⟨h1, h2⟩ := h
  any_goals (exfalso; omega)
  · exact ⟨char_eq_of_toNat c d (by omega), h2⟩
  · obtain ⟨h2, h3⟩ := h2
    exact ⟨char_eq_of_toNat c d (by omega), h3⟩
  · obtain ⟨h2, h3, h4⟩ := h2
    exact ⟨char_eq_of_toNat c d (by omega), h4⟩
  · obtain ⟨h2, h3, h4, h5⟩ := h2
    exact ⟨char_eq_of_toNat c d (by omega), h5⟩

theorem utf8_injective (a b : List Char) (h : utf8 a = utf8 b) : a = b := by
  induction a generalizing b with
  | nil =>
    cases b with
    | nil => rfl
    | cons d ds =>
      exfalso
      unfold utf8 utf8Encode at h
      simp only at h
      split_ifs at h <;> simp at h
  | cons c cs ih =>
    cases b with
    | nil =>
      exfalso
      unfold utf8 utf8Encode at h
      simp only at h
      split_ifs at h <;> simp at h
    | cons d ds =>
      simp only [utf8] at h
      obtain ⟨h1, h2⟩ := utf8Encode_prefix c d _ _ h
      rw [h1, ih ds h2]


theorem utf8Encode_length (c : Char) : (utf8Encode c).length = c.utf8Size := by
  have e : c.val.toNat = c.toNat := rfl
  have h1 : (c.val ≤ 127) ↔ c.toNat ≤ 127 := by rw [← e]; exact Iff.rfl
  have h2 : (c.val ≤ 2047) ↔ c.toNat ≤ 2047 := by rw [← e]; exact Iff.rfl
  have h3 : (c.val ≤ 65535) ↔ c.toNat ≤ 65535 := by rw [← e]; exact Iff.rfl
  unfold utf8Encode
  show (if c.toNat < 128 then [c.toNat]
      else if c.toNat < 2048 then [192 + c.toNat / 64, 128 + c.toNat % 64]
      else if c.toNat < 65536 then
        [224 + c.toNat / 4096, 128 + c.toNat / 64 % 64, 128 + c.toNat % 64]
      else [240 + c.toNat / 262144, 128 + c.toNat / 4096 % 64, 128 + c.toNat / 64 % 64,
        128 + c.toNat % 64]).length
    = (if c.val ≤ 127 then 1 else if c.val ≤ 2047 then 2 else if c.val ≤ 65535 then 3 else 4)
  simp only [h1, h2, h3]
  split_ifs <;> first | rfl | (exfalso; omega)

theorem utf8_length (s : List Char) : (utf8 s).length = byteLen s := by
  induction s with
  | nil => rfl
  | cons c t ih =>
    simp only [utf8, List.length_append, ih, utf8Encode_length, byteLen, List.map_cons,
      List.sum_cons]

theorem escapeChar_prefix (e : Bool) (c d : Char) (r s : List Char)
    (h : escapeChar e c ++ r = escapeChar e d ++ s) : c = d ∧ r = s := by
  have h1 := unescapeChar_escapeChar e c r
  rw [h, unescapeChar_escapeChar e d s] at h1
  simp only [Option.some.injEq, Prod.mk.injEq] at h1
  exact ⟨h1.1.symm, h1.2.symm⟩

theorem escapeChar_head (e : Bool) (c : Char) (r s : List Char) :
    escapeChar e c ++ r ≠ '"' :: s := by
  intro h
  have h1 := unescapeChar_escapeChar e c r
  rw [h] at h1
  have h2 : unescapeChar ('"' :: s) = some ('"', s) := rfl
  rw [h2] at h1
  simp only [Option.some.injEq, Prod.mk.injEq] at h1
  rw [← h1.1] at h
  exact absurd h (by simp [escapeChar])

theorem escapeString_prefix (e : Bool) (a b r s : List Char)
    (h : escapeString e a ++ '"' :: r = escapeString e b ++ '"' :: s) : a = b ∧ r = s := by
  induction a generalizing b with
  | nil =>
    cases b with
    | nil =>
      simp only [escapeString, List.nil_append, List.cons.injEq, true_and] at h
      exact ⟨rfl, h⟩
    | cons d ds =>
      exfalso
      simp only [escapeString, List.nil_append, List.append_assoc] at h
      exact escapeChar_head e d _ _ h.symm
  | cons c cs ih =>
    cases b with
    | nil =>
      exfalso
      simp only [escapeString, List.nil_append, List.append_assoc] at h
      exact escapeChar_head e c _ _ h
    | cons d ds =>
      simp only [escapeString, List.append_assoc] at h
      obtain ⟨h1, h2⟩ := escapeChar_prefix e c d _ _ h
      obtain ⟨h3, h4⟩ := ih ds h2
      exact ⟨by rw [h1, h3], h4⟩

theorem jsonString_prefix (e : Bool) (a b : String) (r s : List Char)
    (h : jsonString e a ++ r = jsonString e b ++ s) : a = b ∧ r = s := by
  simp only [jsonString, List.cons_append, List.append_assoc, List.nil_append,
    List.cons.injEq, true_and] at h
  obtain ⟨h1, h2⟩ := escapeString_prefix e a.data b.data r s h
  exact ⟨String.ext h1, h2⟩

theorem jsonItem_prefix (e : Bool) (a b : Item) (r s : List Char)
    (h : jsonItem e a ++ r = jsonItem e b ++ s) : a = b ∧ r = s := by
  simp only [jsonItem, List.append_assoc] at h
  have h1 := List.append_cancel_left h
  obtain ⟨h2, h3⟩ := jsonString_prefix e _ _ _ _ h1
  have h4 := List.append_cancel_left h3
  obtain ⟨h5, h6⟩ := jsonString_prefix e _ _ _ _ h4
  simp only [List.cons_append, List.nil_append, List.cons.injEq, true_and] at h6
  refine ⟨?_, h6⟩
  cases a
  cases b
  simp only at h2 h5
  rw [h2, h5]

theorem jsonItem_head (e : Bool) (a : Item) (r s : List Char) :
    jsonItem e a ++ r ≠ ']' :: s := by
  simp [jsonItem]

theorem jsonElems_cons (e : Bool) (a : Item) (as : List Item) (r : List Char) :
    jsonElems e (a :: as) ++ r
      = jsonItem e a ++ (match as with
          | [] => r
          | b :: bs => ',' :: (jsonElems e (b :: bs) ++ r)) := by
  cases as with
  | nil => simp only [jsonElems]
  | cons b bs => simp only [jsonElems, List.append_assoc, List.cons_append]

theorem jsonElems_prefix (e : Bool) (a b : List Item) (r s : List Char)
    (h : jsonElems e a ++ ']' :: r = jsonElems e b ++ ']' :: s) : a = b ∧ r = s := by
  induction a generalizing b with
  | nil =>
    cases b with
    | nil =>
      simp only [jsonElems, List.nil_append, List.cons.injEq, true_and] at h
      exact ⟨rfl, h⟩
    | cons d ds =>
      exfalso
      rw [jsonElems_cons] at h
      exact jsonItem_head e d _ _ h.symm
  | cons c cs ih =>
    cases b with
    | nil =>
      exfalso
      rw [jsonElems_cons] at h
      exact jsonItem_head e c _ _ h
    | cons d ds =>
      rw [jsonElems_cons, jsonElems_cons] at h
      obtain ⟨h1, h2⟩ := jsonItem_prefix e c d _ _ h
      cases cs with
      | nil =>
        cases ds with
        | nil =>
          simp only [List.cons.injEq, true_and] at h2
          exact ⟨by rw [h1], h2⟩
        | cons d2 ds2 => simp at h2
      | cons c2 cs2 =>
        cases ds with
        | nil => simp at h2
        | cons d2 ds2 =>
          simp only [List.cons.injEq, true_and] at h2
          obtain ⟨h3, h4⟩ := ih (d2 :: ds2) h2
          exact ⟨by rw [h1, h3], h4⟩

theorem jsonItems_prefix (e : Bool) (a b : Slice Item) (r s : List Char)
    (h : jsonItems e a ++ r = jsonItems e b ++ s) : a = b ∧ r = s := by
  cases a with
  | null =>
    cases b with
    | null =>
      simp only [jsonItems] at h
      exact ⟨rfl, List.append_cancel_left h⟩
    | of ys => simp [jsonItems] at h
  | of xs =>
    cases b with
    | null => simp [jsonItems] at h
    | of ys =>
      simp only [jsonItems, List.cons_append, List.append_assoc, List.nil_append,
        List.cons.injEq, true_and] at h
      obtain ⟨h1, h2⟩ := jsonElems_prefix e xs ys r s h
      exact ⟨by rw [h1], h2⟩

theorem jsonReceipt_injective (e : Bool) (a b : Receipt)
    (h : jsonReceipt e a = jsonReceipt e b) : a = b := by
  simp only [jsonReceipt, List.append_assoc] at h
  have h1 := List.append_cancel_left h
  obtain ⟨e1, h2⟩ := jsonString_prefix e _ _ _ _ h1
  have h3 := List.append_cancel_left h2
  obtain ⟨e2, h4⟩ := jsonString_prefix e _ _ _ _ h3
  have h5 := List.append_cancel_left h4
  obtain ⟨e3, h6⟩ := jsonString_prefix e _ _ _ _ h5
  have h7 := List.append_cancel_left h6
  obtain ⟨e4, h8⟩ := jsonItems_prefix e _ _ _ _ h7
  have h9 := List.append_cancel_left h8
  obtain ⟨e5, _⟩ := jsonString_prefix e _ _ _ _ h9
  cases a
  cases b
  simp only at e1 e2 e3 e4 e5
  rw [e1, e2, e3, e4, e5]

theorem jsonMarshal_injective (e : Bool) (a b : Receipt)
    (h : jsonMarshal e a = jsonMarshal e b) : a = b :=
  jsonReceipt_injective e a b (utf8_injective _ _ h)

theorem slice_eq_of_toList {α : Type} (a b : Slice α) (h : a.toList = b.toList)
    (hn : a = Slice.null ↔ b = Slice.null) : a = b := by
  cases a with
  | null => exact (hn.1 rfl).symm
  | of xs =>
    cases b with
    | null => exact hn.2 rfl
    | of ys =>
      simp only [Slice.toList] at h
      rw [h]

set_option maxRecDepth 100000 in
theorem generateUUID_uuidReceipt (e : Bool) :
    generateUUID (goLib e) uuidReceipt = "b30e733d-fee4-5d80-ab2a-8b6f7bd42a08" := by
  cases e <;> decide

set_option maxRecDepth 100000 in
theorem generateUUID_nilItemsReceipt (e : Bool) :
    generateUUID (goLib e) nilItemsReceipt = "9d3369ff-59ad-5b84-be11-bbce3a87c425" := by
  cases e <;> decide

set_option maxRecDepth 100000 in
theorem generateUUID_emptyItemsReceipt (e : Bool) :
    generateUUID (goLib e) emptyItemsReceipt = "319483b7-46dd-53d5-af3d-7e705fa5081d" := by
  cases e <;> decide

/-- C7 (amended): the identifier is a function of the receipt content as `json.Marshal`
serialises it.  Two receipts with the same retailer, purchase date, purchase time and
total, the same items in the same order, and items slices that are both nil or both not
nil, have the same identifier, with the libraries of the program and with any others.
These conditions are exactly what equal serialisations mean: two receipts that
`json.Marshal` writes as the same bytes satisfy all of them.  With the libraries of the
program, the receipt of `TestGenerateUUID` has the identifier
b30e733d-fee4-5d80-ab2a-8b6f7bd42a08. -/
theorem generateUUID_deterministic (shortEscapes : Bool) (R1 R2 : Receipt)
    (hRetailer : R1.Retailer = R2.Retailer) (hDate : R1.PurchaseDate = R2.PurchaseDate)
    (hTime : R1.PurchaseTime = R2.PurchaseTime) (hTotal : R1.Total = R2.Total)
    (hItems : R1.Items.toList = R2.Items.toList)
    (hNil : R1.Items = Slice.null ↔ R2.Items = Slice.null) :
    generateUUID (goLib shortEscapes) R1 = generateUUID (goLib shortEscapes) R2
      ∧ (∀ lib : IdentityLib, generateUUID lib R1 = generateUUID lib R2)
      ∧ (∀ A B : Receipt, jsonMarshal shortEscapes A = jsonMarshal shortEscapes B →
          A.Retailer = B.Retailer ∧ A.PurchaseDate = B.PurchaseDate
            ∧ A.PurchaseTime = B.PurchaseTime ∧ A.Total = B.Total
            ∧ A.Items.toList = B.Items.toList
            ∧ (A.Items = Slice.null ↔ B.Items = Slice.null))
      ∧ generateUUID (goLib shortEscapes) uuidReceipt
          = "b30e733d-fee4-5d80-ab2a-8b6f7bd42a08" := by
  have hI := slice_eq_of_toList R1.Items R2.Items hItems hNil
  have hR : R1 = R2 := by
    cases R1
    cases R2
    simp only at hRetailer hDate hTime hTotal hI
    rw [hRetailer, hDate, hTime, hTotal, hI]
  refine ⟨by rw [hR], fun lib => by rw [hR], ?_, generateUUID_uuidReceipt shortEscapes⟩
  intro A B hAB
  have hE := jsonMarshal_injective shortEscapes A B hAB
  rw [hE]
  exact ⟨rfl, rfl, rfl, rfl, rfl, Iff.rfl⟩

/-- Witness for C7: the two receipts of `TestGenerateUUID`, one written out field by
field and one a copy of the test receipt. -/
theorem generateUUID_deterministic_witness :
    generateUUID (goLib true)
        { Retailer := "Target", PurchaseDate := "2022-01-01", PurchaseTime := "13:01",
          Items := Slice.of [⟨"Mountain Dew 12PK", "6.49"⟩], Total := "6.49" }
      = generateUUID (goLib true) uuidReceipt :=
  (generateUUID_deterministic true
    { Retailer := "Target", PurchaseDate := "2022-01-01", PurchaseTime := "13:01",
      Items := Slice.of [⟨"Mountain Dew 12PK", "6.49"⟩], Total := "6.49" }
    uuidReceipt rfl rfl rfl rfl rfl (by decide)).1

/-- Counterexample to C7 as stated: a receipt whose items are the nil slice and one whose
items are an empty slice have the same retailer, purchase date, purchase time and total and
the same (no) items, but `json.Marshal` writes `null` for the one and `[]` for the other,
and the two identifiers differ. -/
theorem generateUUID_deterministic_counterexample :
    nilItemsReceipt.Retailer = emptyItemsReceipt.Retailer
      ∧ nilItemsReceipt.PurchaseDate = emptyItemsReceipt.PurchaseDate
      ∧ nilItemsReceipt.PurchaseTime = emptyItemsReceipt.PurchaseTime
      ∧ nilItemsReceipt.Total = emptyItemsReceipt.Total
      ∧ nilItemsReceipt.Items.toList = emptyItemsReceipt.Items.toList
      ∧ String.mk (jsonItems true nilItemsReceipt.Items) = "null"
      ∧ String.mk (jsonItems true emptyItemsReceipt.Items) = "[]"
      ∧ generateUUID (goLib true) nilItemsReceipt = "9d3369ff-59ad-5b84-be11-bbce3a87c425"
      ∧ generateUUID (goLib true) emptyItemsReceipt = "319483b7-46dd-53d5-af3d-7e705fa5081d"
      ∧ ∀ shortEscapes : Bool, generateUUID (goLib shortEscapes) nilItemsReceipt
          ≠ generateUUID (goLib shortEscapes) emptyItemsReceipt := by
  refine ⟨rfl, rfl, rfl, rfl, rfl, rfl, rfl, generateUUID_nilItemsReceipt true,
    generateUUID_emptyItemsReceipt true, ?_⟩
  intro e
  rw [generateUUID_nilItemsReceipt e, generateUUID_emptyItemsReceipt e]
  decide

end ReceiptProcessor
